import Mathlib

/-
  Verification development for the CollabEdit repository.

  The definitions below are shallow embeddings of the TypeScript sources:
    - protocol.ts   : wire data model (UserInfo, FileInfo, TextChange, messages)
    - fileSync.ts   : manifest diffing, suppression set, initial sync
    - documentSync.ts : remote-edit application
    - server.ts     : host registry, join handling, heartbeat sweep,
                      client reconnect backoff
  Machine integers do not overflow in any of this code, so numbers are Nat.
  Asynchronous effects (file writes, socket sends, timers) are made explicit
  as action traces and expiry timestamps.
-/

/-! ## Protocol data model (protocol.ts) -/

/-- Cursor position, protocol.ts CursorPosition. -/
structure CursorPosition where
  line : Nat
  character : Nat
deriving DecidableEq

/-- Selection range, protocol.ts SelectionRange. -/
structure SelectionRange where
  startLine : Nat
  startCharacter : Nat
  endLine : Nat
  endCharacter : Nat
deriving DecidableEq

/-- Manifest entry, protocol.ts FileInfo. -/
structure FileInfo where
  path : String
  hash : String
  size : Nat
deriving DecidableEq

/-- Text change, protocol.ts TextChange. -/
structure TextChange where
  rangeOffset : Nat
  rangeLength : Nat
  text : String
  startLine : Nat
  startCharacter : Nat
  endLine : Nat
  endCharacter : Nat
deriving DecidableEq

/-- User info, protocol.ts UserInfo. activeFile and cursor are nullable. -/
structure UserInfo where
  userId : String
  username : String
  color : String
  activeFile : Option String
  cursor : Option CursorPosition
  selections : List SelectionRange
deriving DecidableEq

/-- File content encoding tag: a utf8 or base64 envelope. -/
inductive Encoding where
  | utf8
  | base64
deriving DecidableEq

/-- The fixed color palette, protocol.ts USER_COLORS (12 entries). -/
def USER_COLORS : List String :=
  ["#FF6B6B", "#4ECDC4", "#45B7D1", "#96CEB4",
   "#FFEAA7", "#DDA0DD", "#98D8C8", "#F7DC6F",
   "#BB8FCE", "#85C1E9", "#F0B27A", "#82E0AA"]

/-! ## Manifest diffing (fileSync.ts compareManifest)

JavaScript `new Map(list.map(f => [f.path, f]))` keeps, for each path, the
LAST list entry with that path, and iterates keys in first-occurrence order.
`lookupLast` and `firstOccurs` model exactly that. -/

/-- Value stored under key p by a JS Map built from the list: the last
entry whose path is p. -/
def lookupLast (l : List FileInfo) (p : String) : Option FileInfo :=
  match l with
  | [] => none
  | f :: rest =>
    match lookupLast rest p with
    | some g => some g
    | none => if f.path = p then some f else none

/-- Key iteration order of a JS Map built from the list: first occurrences. -/
def firstOccurs (l : List String) : List String :=
  match l with
  | [] => []
  | p :: rest => p :: (firstOccurs rest).filter (fun q => q ≠ p)

/-- fileSync.ts compareManifest: toDownload = remote paths missing locally or
with a differing hash; toDelete = local paths absent remotely. -/
def compareManifest (lm rm : List FileInfo) : List String × List String :=
  let toDownload := (firstOccurs (rm.map (fun f => f.path))).filter (fun p =>
    match lookupLast lm p, lookupLast rm p with
    | none, _ => true
    | some lf, some rf => lf.hash ≠ rf.hash
    | some _, none => false)
  let toDelete := (firstOccurs (lm.map (fun f => f.path))).filter (fun p =>
    (lookupLast rm p).isNone)
  (toDownload, toDelete)

theorem lookupLast_eq_none (l : List FileInfo) (p : String) :
    lookupLast l p = none ↔ ∀ f ∈ l, f.path ≠ p := by
  induction l with
  | nil => simp [lookupLast]
  | cons f rest ih =>
    simp only [lookupLast, List.mem_cons]
    cases h : lookupLast rest p with
    | some g =>
      simp only [reduceCtorEq, false_iff, not_forall]
      have hg : ¬ (∀ f ∈ rest, f.path ≠ p) := by
        rw [← ih]
        simp [h]
      push_neg at hg
      obtain ⟨g', hg', hp'⟩ := hg
      exact ⟨g', Or.inr hg', by simp [hp']⟩
    | none =>
      have hrest := ih.mp h
      by_cases hf : f.path = p
      · simp only [if_pos hf, reduceCtorEq, false_iff, not_forall]
        exact ⟨f, Or.inl rfl, by simp [hf]⟩
      · simp only [if_neg hf, true_iff]
        rintro g (rfl | hg)
        · exact hf
        · exact hrest g hg

theorem lookupLast_mem (l : List FileInfo) (p : String) (f : FileInfo)
    (h : lookupLast l p = some f) : f ∈ l ∧ f.path = p := by
  induction l with
  | nil => simp [lookupLast] at h
  | cons g rest ih =>
    simp only [lookupLast] at h
    cases hr : lookupLast rest p with
    | some g' =>
      rw [hr] at h
      obtain ⟨hm, hp⟩ := ih (by rw [hr, ← h])
      exact ⟨List.mem_cons_of_mem _ hm, hp⟩
    | none =>
      rw [hr] at h
      by_cases hg : g.path = p
      · rw [if_pos hg] at h
        cases h
        exact ⟨List.mem_cons_self _ _, hg⟩
      · rw [if_neg hg] at h
        cases h

theorem lookupLast_eq_some_of_nodup (l : List FileInfo) (p : String) (f : FileInfo)
    (hnd : (l.map FileInfo.path).Nodup) (hf : f ∈ l) (hp : f.path = p) :
    lookupLast l p = some f := by
  induction l with
  | nil => simp at hf
  | cons g rest ih =>
    simp only [List.map_cons, List.nodup_cons, List.mem_map] at hnd
    obtain ⟨hgnot, hndrest⟩ := hnd
    rcases List.mem_cons.mp hf with rfl | hmem
    · have hnone : lookupLast rest p = none := by
        rw [lookupLast_eq_none]
        intro e he hep
        exact hgnot ⟨e, he, by rw [hep, ← hp]⟩
      simp [lookupLast, hnone, hp]
    · have hsome := ih hndrest hmem
      simp [lookupLast, hsome]

theorem mem_firstOccurs (l : List String) (p : String) :
    p ∈ firstOccurs l ↔ p ∈ l := by
  induction l with
  | nil => simp [firstOccurs]
  | cons q rest ih =>
    simp only [firstOccurs, List.mem_cons, List.mem_filter, decide_eq_true_eq]
    constructor
    · rintro (rfl | ⟨hm, _⟩)
      · exact Or.inl rfl
      · exact Or.inr (ih.mp hm)
    · rintro (rfl | hm)
      · exact Or.inl rfl
      · by_cases hpq : p = q
        · exact Or.inl hpq
        · exact Or.inr ⟨ih.mpr hm, hpq⟩

theorem nodup_firstOccurs (l : List String) : (firstOccurs l).Nodup := by
  induction l with
  | nil => simp [firstOccurs]
  | cons q rest ih =>
    simp only [firstOccurs, List.nodup_cons]
    refine ⟨fun hq => ?_, ih.filter _⟩
    simp only [List.mem_filter, decide_eq_true_eq] at hq
    exact hq.2 rfl

/-- Uniqueness of a member with a given path in a nodup-path list. -/
theorem path_unique_of_nodup (l : List FileInfo)
    (hnd : (l.map FileInfo.path).Nodup) (f g : FileInfo)
    (hf : f ∈ l) (hg : g ∈ l) (h : f.path = g.path) : f = g :=
  List.inj_on_of_nodup_map hnd hf hg h

/-- C1.  Manifest diff correctness: over manifests with unique paths, a path
is in toDownload iff some remote entry carries it and no local entry with that
path shares its hash; a path is in toDelete iff a local entry carries it and no
remote entry does; the two lists are disjoint; and the concrete example of a
local manifest with only a.txt against a remote manifest with only b.txt yields
toDownload = just b.txt and toDelete = just a.txt. -/
theorem compareManifest_correct (lm rm : List FileInfo)
    (hl : (lm.map FileInfo.path).Nodup) (hr : (rm.map FileInfo.path).Nodup)
    (p : String) :
    (p ∈ (compareManifest lm rm).1 ↔
      ∃ rf ∈ rm, rf.path = p ∧ ∀ lf ∈ lm, lf.path = p → lf.hash ≠ rf.hash)
    ∧ (p ∈ (compareManifest lm rm).2 ↔
      (∃ lf ∈ lm, lf.path = p) ∧ ∀ rf ∈ rm, rf.path ≠ p)
    ∧ ¬(p ∈ (compareManifest lm rm).1 ∧ p ∈ (compareManifest lm rm).2)
    ∧ compareManifest [⟨"a.txt", "H1", 1⟩] [⟨"b.txt", "H2", 2⟩]
        = (["b.txt"], ["a.txt"]) := by
  have hdown : p ∈ (compareManifest lm rm).1 ↔
      ∃ rf ∈ rm, rf.path = p ∧ ∀ lf ∈ lm, lf.path = p → lf.hash ≠ rf.hash := by
    simp only [compareManifest, List.mem_filter, mem_firstOccurs, List.mem_map]
    constructor
    · rintro ⟨⟨rf0, hrf0, hrfp⟩, hpred⟩
      have hlook : lookupLast rm p = some rf0 :=
        lookupLast_eq_some_of_nodup rm p rf0 hr hrf0 hrfp
      refine ⟨rf0, hrf0, hrfp, fun lf hlf hlfp => ?_⟩
      have hlf0 : lookupLast lm p = some lf :=
        lookupLast_eq_some_of_nodup lm p lf hl hlf hlfp
      rw [hlf0, hlook] at hpred
      simpa using hpred
    · rintro ⟨rf, hrf, hrfp, hall⟩
      have hlook : lookupLast rm p = some rf :=
        lookupLast_eq_some_of_nodup rm p rf hr hrf hrfp
      refine ⟨⟨rf, hrf, hrfp⟩, ?_⟩
      cases hll : lookupLast lm p with
      | none => simp [hll, hlook]
      | some lf =>
        obtain ⟨hlfm, hlfp⟩ := lookupLast_mem lm p lf hll
        have := hall lf hlfm hlfp
        simp [hll, hlook, this]
  have hdel : p ∈ (compareManifest lm rm).2 ↔
      (∃ lf ∈ lm, lf.path = p) ∧ ∀ rf ∈ rm, rf.path ≠ p := by
    simp only [compareManifest, List.mem_filter, mem_firstOccurs, List.mem_map,
      Option.isNone_iff_eq_none, lookupLast_eq_none, decide_eq_true_eq]
  refine ⟨hdown, hdel, ?_, by decide⟩
  rintro ⟨h1, h2⟩
  obtain ⟨rf, hrf, hrfp, -⟩ := hdown.mp h1
  obtain ⟨-, hno⟩ := hdel.mp h2
  exact hno rf hrf hrfp

/-- C1 witness: the general theorem applied to the concrete one-file manifests
of the claim's example. -/
theorem compareManifest_correct_witness :
    (([(⟨"a.txt", "H1", 1⟩ : FileInfo)].map FileInfo.path).Nodup
      ∧ ([(⟨"b.txt", "H2", 2⟩ : FileInfo)].map FileInfo.path).Nodup)
    ∧ (("b.txt" ∈ (compareManifest [⟨"a.txt", "H1", 1⟩] [⟨"b.txt", "H2", 2⟩]).1 ↔
        ∃ rf ∈ [(⟨"b.txt", "H2", 2⟩ : FileInfo)], rf.path = "b.txt" ∧
          ∀ lf ∈ [(⟨"a.txt", "H1", 1⟩ : FileInfo)], lf.path = "b.txt" →
            lf.hash ≠ rf.hash)
      ∧ ("b.txt" ∈ (compareManifest [⟨"a.txt", "H1", 1⟩] [⟨"b.txt", "H2", 2⟩]).2 ↔
        (∃ lf ∈ [(⟨"a.txt", "H1", 1⟩ : FileInfo)], lf.path = "b.txt") ∧
          ∀ rf ∈ [(⟨"b.txt", "H2", 2⟩ : FileInfo)], rf.path ≠ "b.txt")
      ∧ ¬("b.txt" ∈ (compareManifest [⟨"a.txt", "H1", 1⟩] [⟨"b.txt", "H2", 2⟩]).1
          ∧ "b.txt" ∈ (compareManifest [⟨"a.txt", "H1", 1⟩] [⟨"b.txt", "H2", 2⟩]).2)
      ∧ compareManifest [⟨"a.txt", "H1", 1⟩] [⟨"b.txt", "H2", 2⟩]
          = (["b.txt"], ["a.txt"])) :=
  ⟨⟨by decide, by decide⟩,
    compareManifest_correct [⟨"a.txt", "H1", 1⟩] [⟨"b.txt", "H2", 2⟩]
      (by decide) (by decide) "b.txt"⟩

/-! ## Edit synchronizer (documentSync.ts) -/

/-- A DocEdit wire payload, protocol.ts DocEditMessage. -/
structure DocEditMessage where
  path : String
  changes : List TextChange
  version : Nat
  userId : String
deriving DecidableEq

/-- DocumentSync mutable state: per-path version map, re-entrancy flag,
local user identity. -/
structure DocSyncState where
  documentVersions : List (String × Nat)
  applyingRemoteEdit : Bool
  userId : String
deriving DecidableEq

/-- JS Map.set: overwrite in place if the key exists, else append. -/
def setVersion (m : List (String × Nat)) (p : String) (v : Nat) :
    List (String × Nat) :=
  if m.any (fun e => e.1 = p) then
    m.map (fun e => if e.1 = p then (p, v) else e)
  else
    m ++ [(p, v)]

/-- documentSync.ts applyRemoteEdit.  Returns the post state together with the
list of text changes applied to the buffer (empty means no buffer mutation).
docExists models whether openTextDocument succeeds.  The re-entrancy flag is
still raised in the result; releaseEditGuard models the delayed release. -/
def applyRemoteEdit (st : DocSyncState) (docExists : Bool)
    (msg : DocEditMessage) : DocSyncState × List TextChange :=
  if msg.userId = st.userId then
    (st, [])
  else if docExists = false then
    (st, [])
  else
    ({ st with
        applyingRemoteEdit := true,
        documentVersions := setVersion st.documentVersions msg.path msg.version },
      msg.changes)

/-- The setTimeout(50) in applyRemoteEdit's finally block: releases the
re-entrancy guard after the grace delay. -/
def releaseEditGuard (st : DocSyncState) : DocSyncState :=
  { st with applyingRemoteEdit := false }

/-- C2.  Self-echo suppression: a DocEdit whose userId equals the local
identity leaves the whole DocumentSync state (version map and re-entrancy
flag included) unchanged and applies no text change to any buffer. -/
theorem applyRemoteEdit_self_noop (st : DocSyncState) (docExists : Bool)
    (msg : DocEditMessage) (h : msg.userId = st.userId) :
    applyRemoteEdit st docExists msg = (st, []) := by
  simp [applyRemoteEdit, h]

/-- C2 witness: a concrete self-addressed DocEdit is a complete no-op. -/
theorem applyRemoteEdit_self_noop_witness :
    ("alice" : String) = "alice"
    ∧ applyRemoteEdit ⟨[("f.txt", 3)], false, "alice"⟩ true
        ⟨"f.txt", [⟨0, 0, "hi", 0, 0, 0, 0⟩], 4, "alice"⟩
      = (⟨[("f.txt", 3)], false, "alice"⟩, []) :=
  ⟨rfl, applyRemoteEdit_self_noop ⟨[("f.txt", 3)], false, "alice"⟩ true
    ⟨"f.txt", [⟨0, 0, "hi", 0, 0, 0, 0⟩], 4, "alice"⟩ rfl⟩

/-! ## Client reconnect policy (server.ts CollabClient) -/

/-- CollabClient connection-management state. -/
structure ClientState where
  reconnectAttempts : Nat
  maxReconnectAttempts : Nat
  shouldReconnect : Bool
  connected : Bool
deriving DecidableEq

/-- Fresh CollabClient: attempts 0, max 10, reconnection desired. -/
def clientInit : ClientState :=
  { reconnectAttempts := 0, maxReconnectAttempts := 10,
    shouldReconnect := true, connected := false }

/-- server.ts CollabClient.scheduleReconnect: increment the attempt counter,
then schedule a retry after min(1000 * 2 ^ attempts, 30000) ms. -/
def scheduleReconnect (st : ClientState) : ClientState × Nat :=
  ({ st with reconnectAttempts := st.reconnectAttempts + 1 },
    min (1000 * 2 ^ (st.reconnectAttempts + 1)) 30000)

/-- The socket close handler: mark disconnected, and schedule a reconnect
only while reconnection is desired and fewer than max attempts were made.
The second component is the scheduled delay, if any. -/
def handleSocketClose (st : ClientState) : ClientState × Option Nat :=
  let st1 := { st with connected := false }
  if st1.shouldReconnect = true ∧
      st1.reconnectAttempts < st1.maxReconnectAttempts then
    ((scheduleReconnect st1).1, some (scheduleReconnect st1).2)
  else
    (st1, none)

/-- The socket open handler: mark connected and reset the attempt counter. -/
def handleSocketOpen (st : ClientState) : ClientState :=
  { st with connected := true, reconnectAttempts := 0 }

/-- C4.  Reconnect backoff: for attempt n with 1 <= n <= 10 the scheduled
delay is min(1000 * 2 ^ n, 30000) ms; once 10 attempts have been made no
further timer is scheduled (and the counter never moves past 10 on further
closes, so none is ever scheduled again); a successful open resets the
counter to 0. -/
theorem reconnectBackoff_correct :
    (∀ (st : ClientState) (n : Nat), st.shouldReconnect = true →
      st.maxReconnectAttempts = 10 → st.reconnectAttempts + 1 = n →
      1 ≤ n → n ≤ 10 →
      (handleSocketClose st).2 = some (min (1000 * 2 ^ n) 30000))
    ∧ (∀ st : ClientState, st.maxReconnectAttempts = 10 →
      10 ≤ st.reconnectAttempts →
      (handleSocketClose st).2 = none ∧
        (handleSocketClose st).1.reconnectAttempts = st.reconnectAttempts)
    ∧ (∀ st : ClientState, (handleSocketOpen st).reconnectAttempts = 0) := by
  refine ⟨?_, ?_, fun st => rfl⟩
  · intro st n hs hm hn h1 h10
    have hlt : st.reconnectAttempts < st.maxReconnectAttempts := by omega
    simp [handleSocketClose, scheduleReconnect, hs, hlt, hn]
  · intro st hm hge
    have hnlt : ¬ st.reconnectAttempts < st.maxReconnectAttempts := by omega
    simp [handleSocketClose, hnlt]

/-- C4 witness: attempt 3 from a reconnecting client with 2 prior attempts
schedules min(1000 * 2 ^ 3, 30000) = 8000 ms; a client at 10 attempts
schedules nothing; open resets the counter. -/
theorem reconnectBackoff_correct_witness :
    ((⟨2, 10, true, false⟩ : ClientState).shouldReconnect = true
      ∧ (⟨2, 10, true, false⟩ : ClientState).maxReconnectAttempts = 10
      ∧ (2 : Nat) + 1 = 3 ∧ (1 : Nat) ≤ 3 ∧ (3 : Nat) ≤ 10
      ∧ (10 : Nat) ≤ (⟨10, 10, true, false⟩ : ClientState).reconnectAttempts)
    ∧ (handleSocketClose ⟨2, 10, true, false⟩).2 = some (min (1000 * 2 ^ 3) 30000)
    ∧ (handleSocketClose ⟨10, 10, true, false⟩).2 = none
    ∧ (handleSocketOpen ⟨10, 10, true, false⟩).reconnectAttempts = 0 :=
  ⟨⟨rfl, rfl, rfl, by decide, by decide, by decide⟩,
    reconnectBackoff_correct.1 ⟨2, 10, true, false⟩ 3 rfl rfl rfl
      (by decide) (by decide),
    (reconnectBackoff_correct.2.1 ⟨10, 10, true, false⟩ rfl (by decide)).1,
    reconnectBackoff_correct.2.2 ⟨10, 10, true, false⟩⟩

/-! ## Suppression set (fileSync.ts suppressedPaths)

suppressPath adds the path to a Set and schedules a setTimeout that deletes
it 3000 ms later.  The state keeps the Set together with the pending delete
timers; elapseTo t fires every timer due at or before t. -/

/-- Suppression-set state: the Set of suppressed paths plus the pending
setTimeout deletions as (fire time, path) pairs. -/
structure SuppressState where
  active : List String
  pending : List (Nat × String)
deriving DecidableEq

/-- JS Set.add: append if absent. -/
def setInsert (l : List String) (p : String) : List String :=
  if p ∈ l then l else l ++ [p]

/-- fileSync.ts suppressPath at current time now: add the path to the Set and
schedule its deletion 3000 ms later. -/
def suppressPath (now : Nat) (p : String) (st : SuppressState) : SuppressState :=
  { active := setInsert st.active p, pending := st.pending ++ [(now + 3000, p)] }

/-- Let wall-clock time advance to t: every pending deletion due at or
before t fires (removing its path from the Set) and leaves the timer list. -/
def elapseTo (t : Nat) (st : SuppressState) : SuppressState :=
  { active := st.active.filter
      (fun p => ¬ st.pending.any (fun q => decide (q.1 ≤ t ∧ q.2 = p))),
    pending := st.pending.filter (fun q => decide (t < q.1)) }

/-- fileSync.ts isSuppressed: Set membership. -/
def isSuppressed (st : SuppressState) (p : String) : Bool :=
  decide (p ∈ st.active)

theorem isSuppressed_suppressPath (now : Nat) (p : String) (st : SuppressState) :
    isSuppressed (suppressPath now p st) p = true := by
  simp only [isSuppressed, suppressPath, setInsert, decide_eq_true_eq]
  by_cases h : p ∈ st.active
  · simp [h]
  · simp [h]

theorem isSuppressed_suppressPath_other (now : Nat) (p q : String)
    (st : SuppressState) (h : isSuppressed st q = true) :
    isSuppressed (suppressPath now p st) q = true := by
  simp only [isSuppressed, suppressPath, setInsert, decide_eq_true_eq] at *
  by_cases hp : p ∈ st.active
  · simp [hp, h]
  · simp [hp, List.mem_append, h]

/-- C8 counterexample.  The claim asserts the 3-second window holds per
suppressPath call even under repeated suppression of the same path.  In the
code the FIRST call's timer deletes the path from the Set 3000 ms after that
first call: suppress at time 0, suppress again at time 2000, and at time 3000
— strictly inside the second call's window, 3000 < 2000 + 3000 — the path is
no longer suppressed. -/
theorem suppressWindow_counterexample :
    isSuppressed
      (elapseTo 3000
        (suppressPath 2000 "a.txt"
          (elapseTo 2000 (suppressPath 0 "a.txt" ⟨[], []⟩)))) "a.txt" = false
    ∧ 3000 < 2000 + 3000 := by
  constructor
  · rfl
  · decide

/-- Membership in the Set after time advances to t: the path survives iff
no pending timer for it was due. -/
theorem mem_elapseTo_active (t : Nat) (st : SuppressState) (p : String) :
    p ∈ (elapseTo t st).active ↔
      p ∈ st.active ∧ ∀ q ∈ st.pending, q.2 = p → ¬ q.1 ≤ t := by
  simp only [elapseTo, List.mem_filter, decide_eq_true_eq, List.any_eq_true,
    not_exists, not_and]
  tauto

theorem mem_setInsert_self (l : List String) (p : String) : p ∈ setInsert l p := by
  by_cases h : p ∈ l <;> simp [setInsert, h]

/-- C8 as amended.  When the call's timer is the only pending timer for p
(no overlapping suppression), isSuppressed p is true immediately after
suppressPath and throughout the 3-second window, and false once 3 seconds
have elapsed; under overlapping re-suppression the window is NOT extended:
the first call's timer ends suppression 3000 ms after the FIRST call, even
inside the second call's window. -/
theorem suppressWindow_amended (st : SuppressState) (p : String) (s t s2 : Nat)
    (hclean : ∀ q ∈ st.pending, q.2 ≠ p) :
    (isSuppressed (suppressPath s p st) p = true)
    ∧ (t < s + 3000 → isSuppressed (elapseTo t (suppressPath s p st)) p = true)
    ∧ (s + 3000 ≤ t → isSuppressed (elapseTo t (suppressPath s p st)) p = false)
    ∧ (s ≤ s2 → s2 < s + 3000 → s + 3000 ≤ t →
        isSuppressed
          (elapseTo t
            (suppressPath s2 p (elapseTo s2 (suppressPath s p st)))) p = false) := by
  refine ⟨isSuppressed_suppressPath s p st, ?_, ?_, ?_⟩
  · intro ht
    rw [isSuppressed, decide_eq_true_eq, mem_elapseTo_active]
    refine ⟨mem_setInsert_self st.active p, fun q hq hqp => ?_⟩
    rcases List.mem_append.mp hq with hq1 | hq2
    · exact absurd hqp (hclean q hq1)
    · simp only [List.mem_singleton] at hq2
      subst hq2
      omega
  · intro hle
    rw [isSuppressed, decide_eq_false_iff_not, mem_elapseTo_active]
    rintro ⟨-, h2⟩
    exact h2 (s + 3000, p) (List.mem_append_right _ (List.mem_singleton.mpr rfl))
      rfl hle
  · intro hs2 hlt hle
    rw [isSuppressed, decide_eq_false_iff_not, mem_elapseTo_active]
    rintro ⟨-, h2⟩
    apply h2 (s + 3000, p) ?_ rfl hle
    apply List.mem_append_left
    simp only [elapseTo, suppressPath, List.mem_filter, decide_eq_true_eq]
    exact ⟨List.mem_append_right _ (List.mem_singleton.mpr rfl), hlt⟩

/-- C8 witness: a fresh state, one call at time 0 (window held at 2999,
expired at 3000), and the overlapping re-suppression scenario at times
0 and 2000 observed at 3000. -/
theorem suppressWindow_amended_witness :
    (∀ q ∈ (⟨[], []⟩ : SuppressState).pending, q.2 ≠ "a.txt")
    ∧ isSuppressed (suppressPath 0 "a.txt" ⟨[], []⟩) "a.txt" = true
    ∧ isSuppressed (elapseTo 2999 (suppressPath 0 "a.txt" ⟨[], []⟩)) "a.txt" = true
    ∧ isSuppressed (elapseTo 3000 (suppressPath 0 "a.txt" ⟨[], []⟩)) "a.txt" = false
    ∧ isSuppressed
        (elapseTo 3000
          (suppressPath 2000 "a.txt"
            (elapseTo 2000 (suppressPath 0 "a.txt" ⟨[], []⟩)))) "a.txt" = false := by
  have hcl : ∀ q ∈ (⟨[], []⟩ : SuppressState).pending, q.2 ≠ "a.txt" := by
    intro q hq
    simp at hq
  have h1 := suppressWindow_amended ⟨[], []⟩ "a.txt" 0 2999 2000 hcl
  have h2 := suppressWindow_amended ⟨[], []⟩ "a.txt" 0 3000 2000 hcl
  exact ⟨hcl, h1.1, h1.2.1 (by decide), h2.2.2.1 (by decide),
    h2.2.2.2 (by decide) (by decide) (by decide)⟩

/-! ## File synchronization engine (fileSync.ts)

Each remote-originated operation is modelled as a state transformer that also
emits the ordered trace of its primitive effects. -/

/-- Primitive effects of the file-sync engine, in program order. -/
inductive FsAction where
  | suppress (p : String)
  | fsWrite (p : String)
  | fsDelete (p : String)
  | fsRename (oldPath newPath : String)
  | sendRequest (paths : List String)
  | fireComplete
deriving DecidableEq

/-- FileSync mutable state: suppression set, pending download queue, and
whether a sync-complete callback is registered. -/
structure FileSyncState where
  supp : SuppressState
  pendingFiles : List String
  hasCompleteCallback : Bool
deriving DecidableEq

/-- fileSync.ts writeReceivedFile: suppress the path, write the file, drop it
from the pending queue, and fire the completion callback (once) when the
queue empties. -/
def writeReceivedFile (now : Nat) (st : FileSyncState) (p : String) :
    FileSyncState × List FsAction :=
  let supp' := suppressPath now p st.supp
  let pending' := st.pendingFiles.filter (fun q => q ≠ p)
  let fired := pending'.isEmpty && st.hasCompleteCallback
  ({ supp := supp', pendingFiles := pending',
     hasCompleteCallback := if fired then false else st.hasCompleteCallback },
   [FsAction.suppress p, FsAction.fsWrite p] ++
     if fired then [FsAction.fireComplete] else [])

/-- fileSync.ts createFile: suppress the path, then write. -/
def createFile (now : Nat) (st : FileSyncState) (p : String) :
    FileSyncState × List FsAction :=
  ({ st with supp := suppressPath now p st.supp },
   [FsAction.suppress p, FsAction.fsWrite p])

/-- fileSync.ts deleteFile: suppress the path, then unlink. -/
def deleteFile (now : Nat) (st : FileSyncState) (p : String) :
    FileSyncState × List FsAction :=
  ({ st with supp := suppressPath now p st.supp },
   [FsAction.suppress p, FsAction.fsDelete p])

/-- fileSync.ts renameFile: suppress both paths, then rename. -/
def renameFile (now : Nat) (st : FileSyncState) (o n : String) :
    FileSyncState × List FsAction :=
  ({ st with supp := suppressPath now n (suppressPath now o st.supp) },
   [FsAction.suppress o, FsAction.suppress n, FsAction.fsRename o n])

/-- Replay a trace over the suppression set (only suppress actions touch it;
no time passes inside one operation). -/
def stepFs (now : Nat) (st : SuppressState) : FsAction → SuppressState
  | FsAction.suppress p => suppressPath now p st
  | _ => st

/-- Check that at the moment each filesystem mutation in the trace runs, the
path(s) it touches are already in the suppression set. -/
def mutationsSuppressed (now : Nat) (st : SuppressState) :
    List FsAction → Bool
  | [] => true
  | a :: rest =>
    (match a with
      | FsAction.fsWrite p => isSuppressed st p
      | FsAction.fsDelete p => isSuppressed st p
      | FsAction.fsRename o n => isSuppressed st o && isSuppressed st n
      | _ => true)
    && mutationsSuppressed now (stepFs now st a) rest

/-- C10.  Every remote-originated file operation (writeReceivedFile,
createFile, deleteFile, renameFile) inserts the affected path(s) into the
suppression set before performing its filesystem mutation, from any prior
engine state and at any time. -/
theorem remoteOps_suppress_before_mutation (now : Nat) (st : FileSyncState)
    (p o n : String) :
    mutationsSuppressed now st.supp (writeReceivedFile now st p).2 = true
    ∧ mutationsSuppressed now st.supp (createFile now st p).2 = true
    ∧ mutationsSuppressed now st.supp (deleteFile now st p).2 = true
    ∧ mutationsSuppressed now st.supp (renameFile now st o n).2 = true := by
  have key : ∀ b : Bool, mutationsSuppressed now st.supp
      ([FsAction.suppress p, FsAction.fsWrite p] ++
        if b then [FsAction.fireComplete] else []) = true := by
    intro b
    cases b <;> simp [mutationsSuppressed, stepFs, isSuppressed_suppressPath]
  refine ⟨?_, ?_, ?_, ?_⟩
  · exact key ((st.pendingFiles.filter (fun q => q ≠ p)).isEmpty
      && st.hasCompleteCallback)
  · simp [createFile, mutationsSuppressed, stepFs, isSuppressed_suppressPath]
  · simp [deleteFile, mutationsSuppressed, stepFs, isSuppressed_suppressPath]
  · simp [renameFile, mutationsSuppressed, stepFs, isSuppressed_suppressPath,
      isSuppressed_suppressPath_other]

/-! ## Batched initial sync (fileSync.ts startInitialSync) -/

/-- The batching loop: for (i = 0; i < toDownload.length; i += 10) request
toDownload.slice(i, i + 10).  Fuel-based structural recursion; the fuel is
only consumed one unit per batch, so list length is always enough. -/
def batchListAux (fuel : Nat) (l : List String) : List (List String) :=
  match fuel, l with
  | _, [] => []
  | 0, _ :: _ => []
  | fuel + 1, p :: rest =>
    (p :: rest).take 10 :: batchListAux fuel ((p :: rest).drop 10)

def batchList (l : List String) : List (List String) :=
  batchListAux l.length l

theorem batchListAux_join (fuel : Nat) (l : List String)
    (h : l.length ≤ fuel) : (batchListAux fuel l).flatten = l := by
  induction fuel generalizing l with
  | zero =>
    cases l with
    | nil => rfl
    | cons p rest => simp at h
  | succ f ih =>
    cases l with
    | nil => rfl
    | cons p rest =>
      simp only [batchListAux, List.flatten_cons]
      rw [ih ((p :: rest).drop 10) (by simp at h ⊢; omega)]
      exact List.take_append_drop 10 (p :: rest)

theorem batchList_join (l : List String) : (batchList l).flatten = l :=
  batchListAux_join l.length l (Nat.le_refl _)

theorem batchListAux_mem_length (fuel : Nat) (l : List String) (b : List String)
    (hb : b ∈ batchListAux fuel l) : b.length ≤ 10 := by
  induction fuel generalizing l with
  | zero =>
    cases l with
    | nil => simp [batchListAux] at hb
    | cons p rest => simp [batchListAux] at hb
  | succ f ih =>
    cases l with
    | nil => simp [batchListAux] at hb
    | cons p rest =>
      rcases List.mem_cons.mp hb with rfl | hmem
      · exact List.length_take_le 10 (p :: rest)
      · exact ih _ hmem

theorem batchList_mem_length (l : List String) (b : List String)
    (hb : b ∈ batchList l) : b.length ≤ 10 :=
  batchListAux_mem_length l.length l b hb

/-- The sequential deletion loop over toDelete, accumulating the action
trace. -/
def deleteAllFold (now : Nat) (init : FileSyncState × List FsAction)
    (del : List String) : FileSyncState × List FsAction :=
  del.foldl (fun acc p =>
    ((deleteFile now acc.1 p).1, acc.2 ++ (deleteFile now acc.1 p).2)) init

/-- fileSync.ts startInitialSync: diff local against the received manifest,
delete every toDelete path, then either complete synchronously (empty
toDownload) or register the pending set and completion callback and request
the downloads in batches of 10. -/
def startInitialSync (now : Nat) (st : FileSyncState) (lm files : List FileInfo) :
    FileSyncState × List FsAction :=
  let d := compareManifest lm files
  let delRes := deleteAllFold now (st, []) d.2
  if d.1.isEmpty then
    (delRes.1, delRes.2 ++ [FsAction.fireComplete])
  else
    ({ delRes.1 with pendingFiles := d.1, hasCompleteCallback := true },
     delRes.2 ++ (batchList d.1).map FsAction.sendRequest)

/-- Completion-callback firings while a list of requested files arrives, each
processed by writeReceivedFile. -/
def fireCount (now : Nat) (st : FileSyncState) : List String → Nat
  | [] => 0
  | p :: rest =>
    (if FsAction.fireComplete ∈ (writeReceivedFile now st p).2 then 1 else 0) +
      fireCount now (writeReceivedFile now st p).1 rest

/-- Pending paths still outstanding after the given receipts. -/
def remaining (pending received : List String) : List String :=
  pending.filter (fun q => q ∉ received)

theorem deleteAllFold_trace (now : Nat) (del : List String)
    (st : FileSyncState) (acc : List FsAction) :
    (deleteAllFold now (st, acc) del).2 =
      acc ++ (del.map (fun p => [FsAction.suppress p, FsAction.fsDelete p])).flatten := by
  induction del generalizing st acc with
  | nil => simp [deleteAllFold]
  | cons p rest ih =>
    simp only [deleteAllFold, List.foldl_cons] at *
    rw [ih]
    simp [deleteFile, List.append_assoc]

theorem deleteAllFold_state (now : Nat) (del : List String)
    (st : FileSyncState) (acc : List FsAction) :
    (deleteAllFold now (st, acc) del).1.pendingFiles = st.pendingFiles
    ∧ (deleteAllFold now (st, acc) del).1.hasCompleteCallback
        = st.hasCompleteCallback := by
  induction del generalizing st acc with
  | nil => exact ⟨rfl, rfl⟩
  | cons p rest ih =>
    simp only [deleteAllFold, List.foldl_cons] at *
    exact ih _ _

theorem writeReceivedFile_trace (now : Nat) (st : FileSyncState) (p : String) :
    (writeReceivedFile now st p).2 =
      [FsAction.suppress p, FsAction.fsWrite p] ++
        (if ((st.pendingFiles.filter (fun q => q ≠ p)).isEmpty
            && st.hasCompleteCallback) = true
         then [FsAction.fireComplete] else []) := rfl

theorem writeReceivedFile_callback (now : Nat) (st : FileSyncState) (p : String) :
    (writeReceivedFile now st p).1.hasCompleteCallback =
      (if ((st.pendingFiles.filter (fun q => q ≠ p)).isEmpty
          && st.hasCompleteCallback) = true
       then false else st.hasCompleteCallback) := rfl

theorem writeReceivedFile_mem_fireComplete (now : Nat) (st : FileSyncState)
    (p : String) :
    FsAction.fireComplete ∈ (writeReceivedFile now st p).2 ↔
      ((st.pendingFiles.filter (fun q => q ≠ p)).isEmpty
        && st.hasCompleteCallback) = true := by
  rw [writeReceivedFile_trace]
  cases hb : (st.pendingFiles.filter (fun q => q ≠ p)).isEmpty
      && st.hasCompleteCallback <;> simp

theorem fireCount_of_no_callback (now : Nat) (received : List String)
    (st : FileSyncState) (h : st.hasCompleteCallback = false) :
    fireCount now st received = 0 := by
  induction received generalizing st with
  | nil => rfl
  | cons p rest ih =>
    have hfired : ((st.pendingFiles.filter (fun q => q ≠ p)).isEmpty
        && st.hasCompleteCallback) = false := by
      rw [h, Bool.and_false]
    have hmem : ¬ FsAction.fireComplete ∈ (writeReceivedFile now st p).2 := by
      rw [writeReceivedFile_mem_fireComplete, hfired]
      simp
    have hcb : (writeReceivedFile now st p).1.hasCompleteCallback = false := by
      rw [writeReceivedFile_callback, hfired]
      simp [h]
    simp only [fireCount, if_neg hmem, Nat.zero_add]
    exact ih _ hcb

theorem fireCount_le_one (now : Nat) (received : List String)
    (st : FileSyncState) : fireCount now st received ≤ 1 := by
  induction received generalizing st with
  | nil => simp [fireCount]
  | cons p rest ih =>
    cases hb : (st.pendingFiles.filter (fun q => q ≠ p)).isEmpty
        && st.hasCompleteCallback with
    | true =>
      have hmem : FsAction.fireComplete ∈ (writeReceivedFile now st p).2 :=
        (writeReceivedFile_mem_fireComplete now st p).mpr hb
      have hcb : (writeReceivedFile now st p).1.hasCompleteCallback = false := by
        rw [writeReceivedFile_callback, hb]
        simp
      simp only [fireCount, if_pos hmem,
        fireCount_of_no_callback now rest _ hcb]
      omega
    | false =>
      have hmem : ¬ FsAction.fireComplete ∈ (writeReceivedFile now st p).2 := by
        rw [writeReceivedFile_mem_fireComplete, hb]
        simp
      simp only [fireCount, if_neg hmem, Nat.zero_add]
      exact ih _

theorem remaining_nil (pending : List String) : remaining pending [] = pending := by
  simp [remaining]

theorem remaining_cons (pending : List String) (p : String) (rec : List String) :
    remaining pending (p :: rec) =
      remaining (pending.filter (fun q => q ≠ p)) rec := by
  simp only [remaining, List.filter_filter]
  apply List.filter_congr
  intro q hq
  by_cases h1 : q = p <;> by_cases h2 : q ∈ rec <;>
    simp [h1, h2, List.mem_cons]

theorem fireCount_eq_one_iff (now : Nat) (received : List String)
    (st : FileSyncState) (hcb : st.hasCompleteCallback = true)
    (hpend : st.pendingFiles ≠ []) :
    (fireCount now st received = 1 ↔
      ∃ k ≤ received.length, remaining st.pendingFiles (received.take k) = []) := by
  induction received generalizing st with
  | nil =>
    simp only [fireCount, List.length_nil, Nat.le_zero]
    constructor
    · intro h
      cases h
    · rintro ⟨k, rfl, hk⟩
      rw [List.take_nil, remaining_nil] at hk
      exact absurd hk hpend
  | cons p rest ih =>
    cases hb : (st.pendingFiles.filter (fun q => q ≠ p)).isEmpty with
    | true =>
      have hb' : ((st.pendingFiles.filter (fun q => q ≠ p)).isEmpty
          && st.hasCompleteCallback) = true := by
        rw [hb, hcb]
        rfl
      have hmem : FsAction.fireComplete ∈ (writeReceivedFile now st p).2 :=
        (writeReceivedFile_mem_fireComplete now st p).mpr hb'
      have hcb' : (writeReceivedFile now st p).1.hasCompleteCallback = false := by
        rw [writeReceivedFile_callback, hb']
        simp
      have hcount : fireCount now st (p :: rest) = 1 := by
        simp only [fireCount, if_pos hmem,
          fireCount_of_no_callback now rest _ hcb']
      rw [hcount]
      constructor
      · intro _
        refine ⟨1, by simp, ?_⟩
        have ht1 : List.take 1 (p :: rest) = [p] := rfl
        rw [ht1, remaining_cons, remaining_nil]
        exact List.isEmpty_iff.mp hb
      · intro _
        rfl
    | false =>
      have hb' : ((st.pendingFiles.filter (fun q => q ≠ p)).isEmpty
          && st.hasCompleteCallback) = false := by
        rw [hb, Bool.false_and]
      have hmem : ¬ FsAction.fireComplete ∈ (writeReceivedFile now st p).2 := by
        rw [writeReceivedFile_mem_fireComplete, hb']
        simp
      have hcb' : (writeReceivedFile now st p).1.hasCompleteCallback = true := by
        rw [writeReceivedFile_callback, hb']
        simp [hcb]
      have hpend' : (writeReceivedFile now st p).1.pendingFiles ≠ [] := by
        show st.pendingFiles.filter (fun q => q ≠ p) ≠ []
        intro hnil
        rw [hnil] at hb
        simp at hb
      have hpf : (writeReceivedFile now st p).1.pendingFiles
          = st.pendingFiles.filter (fun q => q ≠ p) := rfl
      simp only [fireCount, if_neg hmem, Nat.zero_add]
      rw [ih _ hcb' hpend']
      rw [hpf]
      constructor
      · rintro ⟨k, hk, hrem⟩
        refine ⟨k + 1, by simpa using Nat.succ_le_succ hk, ?_⟩
        rw [List.take_succ_cons, remaining_cons]
        exact hrem
      · rintro ⟨k, hk, hrem⟩
        cases k with
        | zero =>
          rw [List.take_zero, remaining_nil] at hrem
          exact absurd hrem hpend
        | succ k' =>
          rw [List.take_succ_cons, remaining_cons] at hrem
          exact ⟨k', by simpa using Nat.le_of_succ_le_succ hk, hrem⟩

theorem mem_deleteTraces (del : List String) (a : FsAction)
    (ha : a ∈ (del.map (fun p => [FsAction.suppress p, FsAction.fsDelete p])).flatten) :
    (∃ p, a = FsAction.suppress p) ∨ ∃ p, a = FsAction.fsDelete p := by
  rw [List.mem_flatten] at ha
  obtain ⟨l, hl, hal⟩ := ha
  rw [List.mem_map] at hl
  obtain ⟨p, -, rfl⟩ := hl
  rcases List.mem_cons.mp hal with rfl | hal
  · exact Or.inl ⟨p, rfl⟩
  · rcases List.mem_cons.mp hal with rfl | hal
    · exact Or.inr ⟨p, rfl⟩
    · simp at hal

theorem startInitialSync_of_empty (now : Nat) (st : FileSyncState)
    (lm files : List FileInfo) (h : (compareManifest lm files).1.isEmpty = true) :
    startInitialSync now st lm files =
      ((deleteAllFold now (st, []) (compareManifest lm files).2).1,
       (deleteAllFold now (st, []) (compareManifest lm files).2).2
         ++ [FsAction.fireComplete]) := by
  simp only [startInitialSync]
  rw [h]
  simp

theorem startInitialSync_of_nonempty (now : Nat) (st : FileSyncState)
    (lm files : List FileInfo) (h : (compareManifest lm files).1.isEmpty = false) :
    startInitialSync now st lm files =
      ({ (deleteAllFold now (st, []) (compareManifest lm files).2).1 with
          pendingFiles := (compareManifest lm files).1,
          hasCompleteCallback := true },
       (deleteAllFold now (st, []) (compareManifest lm files).2).2
         ++ (batchList (compareManifest lm files).1).map FsAction.sendRequest) := by
  simp only [startInitialSync]
  rw [h]
  simp

/-- C3.  startInitialSync: the action trace is the per-path deletions of
toDelete in order, followed (when toDownload is empty) by a synchronous
completion with no file request at all, or else by the batched file requests;
the batches each hold at most 10 paths and concatenate to exactly the
duplicate-free toDownload list in order; in the non-empty case no completion
fires during startInitialSync, the pending set is exactly toDownload and the
callback is registered, and as received files are written the callback fires
at most once and fires exactly once iff some prefix of the receipts empties
the pending set. -/
theorem startInitialSync_correct (now : Nat) (st : FileSyncState)
    (lm files : List FileInfo) (received : List String) :
    ((startInitialSync now st lm files).2 =
      ((compareManifest lm files).2.map
        (fun p => [FsAction.suppress p, FsAction.fsDelete p])).flatten ++
      (if (compareManifest lm files).1.isEmpty then [FsAction.fireComplete]
       else (batchList (compareManifest lm files).1).map FsAction.sendRequest))
    ∧ ((batchList (compareManifest lm files).1).flatten = (compareManifest lm files).1
        ∧ (∀ b ∈ batchList (compareManifest lm files).1, b.length ≤ 10)
        ∧ (compareManifest lm files).1.Nodup)
    ∧ ((compareManifest lm files).1 = [] →
        FsAction.fireComplete ∈ (startInitialSync now st lm files).2
        ∧ ∀ ps, FsAction.sendRequest ps ∉ (startInitialSync now st lm files).2)
    ∧ ((compareManifest lm files).1 ≠ [] →
        (startInitialSync now st lm files).1.pendingFiles
            = (compareManifest lm files).1
        ∧ (startInitialSync now st lm files).1.hasCompleteCallback = true
        ∧ FsAction.fireComplete ∉ (startInitialSync now st lm files).2)
    ∧ ((compareManifest lm files).1 ≠ [] →
        fireCount now (startInitialSync now st lm files).1 received ≤ 1
        ∧ (fireCount now (startInitialSync now st lm files).1 received = 1 ↔
            ∃ k ≤ received.length,
              remaining (compareManifest lm files).1 (received.take k) = [])) := by
  have htr : (startInitialSync now st lm files).2 =
      ((compareManifest lm files).2.map
        (fun p => [FsAction.suppress p, FsAction.fsDelete p])).flatten ++
      (if (compareManifest lm files).1.isEmpty then [FsAction.fireComplete]
       else (batchList (compareManifest lm files).1).map FsAction.sendRequest) := by
    cases hdl : (compareManifest lm files).1.isEmpty with
    | true =>
      rw [startInitialSync_of_empty now st lm files hdl]
      simp [deleteAllFold_trace]
    | false =>
      rw [startInitialSync_of_nonempty now st lm files hdl]
      simp [deleteAllFold_trace]
  have hnodup : (compareManifest lm files).1.Nodup := by
    simp only [compareManifest]
    exact (nodup_firstOccurs _).filter _
  refine ⟨htr, ⟨batchList_join _, fun b hb => batchList_mem_length _ b hb, hnodup⟩,
    ?_, ?_, ?_⟩
  · intro hdl
    have hdl' : (compareManifest lm files).1.isEmpty = true := by
      rw [hdl]
      rfl
    rw [htr, hdl']
    constructor
    · simp
    · intro ps hmem
      simp only [if_pos rfl] at hmem
      rcases List.mem_append.mp hmem with hmem | hmem
      · rcases mem_deleteTraces _ _ hmem with ⟨q, hq⟩ | ⟨q, hq⟩ <;> cases hq
      · rcases List.mem_singleton.mp hmem
  · intro hdl
    have hdl' : (compareManifest lm files).1.isEmpty = false := by
      cases h' : (compareManifest lm files).1.isEmpty
      · rfl
      · exact absurd (List.isEmpty_iff.mp h') hdl
    refine ⟨?_, ?_, ?_⟩
    · rw [startInitialSync_of_nonempty now st lm files hdl']
    · rw [startInitialSync_of_nonempty now st lm files hdl']
    · rw [htr, hdl', if_neg (by simp)]
      intro hmem
      rcases List.mem_append.mp hmem with hmem | hmem
      · rcases mem_deleteTraces _ _ hmem with ⟨q, hq⟩ | ⟨q, hq⟩ <;> cases hq
      · rw [List.mem_map] at hmem
        obtain ⟨b, -, hb⟩ := hmem
        cases hb
  · intro hdl
    have hdl' : (compareManifest lm files).1.isEmpty = false := by
      cases h' : (compareManifest lm files).1.isEmpty
      · rfl
      · exact absurd (List.isEmpty_iff.mp h') hdl
    have hpf : (startInitialSync now st lm files).1.pendingFiles
        = (compareManifest lm files).1 := by
      rw [startInitialSync_of_nonempty now st lm files hdl']
    have hcb : (startInitialSync now st lm files).1.hasCompleteCallback = true := by
      rw [startInitialSync_of_nonempty now st lm files hdl']
    refine ⟨fireCount_le_one now received _, ?_⟩
    rw [fireCount_eq_one_iff now received _ hcb (by rw [hpf]; exact hdl), hpf]

/-- C3 witness: the general theorem applied to an empty local manifest, a
one-file remote manifest, and the receipt of that one file. -/
theorem startInitialSync_correct_witness :
    fireCount 0 (startInitialSync 0 ⟨⟨[], []⟩, [], false⟩ [] [⟨"a.txt", "H1", 1⟩]).1
        ["a.txt"] = 1
    ∧ (startInitialSync 0 ⟨⟨[], []⟩, [], false⟩ [] [⟨"a.txt", "H1", 1⟩]).2
        = [FsAction.sendRequest ["a.txt"]] := by
  have h := startInitialSync_correct 0 ⟨⟨[], []⟩, [], false⟩ []
    [⟨"a.txt", "H1", 1⟩] ["a.txt"]
  refine ⟨?_, ?_⟩
  · rw [(h.2.2.2.2 (by decide)).2]
    exact ⟨1, by decide, by decide⟩
  · rw [h.1]
    rfl

/-! ## Wire encoding (protocol.ts serializeMessage / deserializeMessage)

serializeMessage is JSON.stringify of the message object and
deserializeMessage is JSON.parse of the string (returning null on parse
failure) cast back to the union.  The platform pair stringify/parse is the
identity between a well-formed object and its JSON text, so the encoding is
modelled at the JSON value level: serializeMessage builds the JSON tree the
object stringifies to, and deserializeMessage reads a message back out of a
JSON tree (none models the null result). -/

/-- JSON values as produced by the protocol (numbers are the protocol's
non-negative integers). -/
inductive Json where
  | null
  | num (n : Nat)
  | str (s : String)
  | arr (items : List Json)
  | obj (fields : List (String × Json))

/-- First binding of a key in a JSON object. -/
def getField (fields : List (String × Json)) (k : String) : Option Json :=
  match fields with
  | [] => none
  | (k', v) :: rest => if k' = k then some v else getField rest k

/-- Field projection on a JSON value. -/
def Json.field (j : Json) (k : String) : Option Json :=
  match j with
  | .obj fs => getField fs k
  | _ => none

def Json.asStr : Json → Option String
  | .str s => some s
  | _ => none

/-- Decode every element of a JSON array, failing if any element fails. -/
def decodeAll (f : Json → Option α) : List Json → Option (List α)
  | [] => some []
  | j :: rest =>
    match f j, decodeAll f rest with
    | some a, some as => some (a :: as)
    | _, _ => none

theorem decodeAll_map (f : Json → Option α) (g : α → Json)
    (h : ∀ a, f (g a) = some a) (l : List α) :
    decodeAll f (l.map g) = some l := by
  induction l with
  | nil => rfl
  | cons a rest ih => simp [decodeAll, h a, ih]

def CursorPosition.toJson (c : CursorPosition) : Json :=
  .obj [("line", .num c.line), ("character", .num c.character)]

def CursorPosition.fromJson (j : Json) : Option CursorPosition :=
  match j.field "line", j.field "character" with
  | some (.num l), some (.num ch) => some ⟨l, ch⟩
  | _, _ => none

def SelectionRange.toJson (s : SelectionRange) : Json :=
  .obj [("startLine", .num s.startLine), ("startCharacter", .num s.startCharacter),
        ("endLine", .num s.endLine), ("endCharacter", .num s.endCharacter)]

def SelectionRange.fromJson (j : Json) : Option SelectionRange :=
  match j.field "startLine", j.field "startCharacter",
      j.field "endLine", j.field "endCharacter" with
  | some (.num a), some (.num b), some (.num c), some (.num d) =>
    some ⟨a, b, c, d⟩
  | _, _, _, _ => none

def FileInfo.toJson (f : FileInfo) : Json :=
  .obj [("path", .str f.path), ("hash", .str f.hash), ("size", .num f.size)]

def FileInfo.fromJson (j : Json) : Option FileInfo :=
  match j.field "path", j.field "hash", j.field "size" with
  | some (.str p), some (.str h), some (.num s) => some ⟨p, h, s⟩
  | _, _, _ => none

def TextChange.toJson (t : TextChange) : Json :=
  .obj [("rangeOffset", .num t.rangeOffset), ("rangeLength", .num t.rangeLength),
        ("text", .str t.text),
        ("startLine", .num t.startLine), ("startCharacter", .num t.startCharacter),
        ("endLine", .num t.endLine), ("endCharacter", .num t.endCharacter)]

def TextChange.fromJson (j : Json) : Option TextChange :=
  match j.field "rangeOffset", j.field "rangeLength", j.field "text" with
  | some (.num ro), some (.num rl), some (.str tx) =>
    match j.field "startLine", j.field "startCharacter",
        j.field "endLine", j.field "endCharacter" with
    | some (.num a), some (.num b), some (.num c), some (.num d) =>
      some ⟨ro, rl, tx, a, b, c, d⟩
    | _, _, _, _ => none
  | _, _, _ => none

def Encoding.toJson : Encoding → Json
  | .utf8 => .str "utf8"
  | .base64 => .str "base64"

def Encoding.fromJson : Json → Option Encoding
  | .str "utf8" => some .utf8
  | .str "base64" => some .base64
  | _ => none

def encodeOptStr : Option String → Json
  | none => .null
  | some s => .str s

def decodeOptStr : Json → Option (Option String)
  | .null => some none
  | .str s => some (some s)
  | _ => none

def encodeOptCursor : Option CursorPosition → Json
  | none => .null
  | some c => c.toJson

def decodeOptCursor (j : Json) : Option (Option CursorPosition) :=
  match j with
  | .null => some none
  | _ =>
    match CursorPosition.fromJson j with
    | some c => some (some c)
    | none => none

def UserInfo.toJson (u : UserInfo) : Json :=
  .obj [("userId", .str u.userId), ("username", .str u.username),
        ("color", .str u.color),
        ("activeFile", encodeOptStr u.activeFile),
        ("cursor", encodeOptCursor u.cursor),
        ("selections", .arr (u.selections.map SelectionRange.toJson))]

def UserInfo.fromJson (j : Json) : Option UserInfo :=
  match j.field "userId", j.field "username", j.field "color" with
  | some (.str uid), some (.str uname), some (.str col) =>
    match j.field "activeFile", j.field "cursor", j.field "selections" with
    | some af, some cur, some (.arr sels) =>
      match decodeOptStr af, decodeOptCursor cur,
          decodeAll SelectionRange.fromJson sels with
      | some af', some cur', some sels' =>
        some ⟨uid, uname, col, af', cur', sels'⟩
      | _, _, _ => none
    | _, _, _ => none
  | _, _, _ => none

theorem cursorPosition_roundtrip (c : CursorPosition) :
    CursorPosition.fromJson (CursorPosition.toJson c) = some c := by
  cases c
  rfl

theorem selectionRange_roundtrip (s : SelectionRange) :
    SelectionRange.fromJson (SelectionRange.toJson s) = some s := by
  cases s
  rfl

theorem fileInfo_roundtrip (f : FileInfo) :
    FileInfo.fromJson (FileInfo.toJson f) = some f := by
  cases f
  rfl

theorem textChange_roundtrip (t : TextChange) :
    TextChange.fromJson (TextChange.toJson t) = some t := by
  cases t
  rfl

theorem encoding_roundtrip (e : Encoding) :
    Encoding.fromJson (Encoding.toJson e) = some e := by
  cases e <;> rfl

theorem optStr_roundtrip (o : Option String) :
    decodeOptStr (encodeOptStr o) = some o := by
  cases o <;> rfl

theorem optCursor_roundtrip (o : Option CursorPosition) :
    decodeOptCursor (encodeOptCursor o) = some o := by
  cases o with
  | none => rfl
  | some c => cases c; rfl

theorem userInfo_roundtrip (u : UserInfo) :
    UserInfo.fromJson (UserInfo.toJson u) = some u := by
  cases u with
  | mk uid uname col af cur sels =>
    simp only [UserInfo.toJson, UserInfo.fromJson, Json.field, getField]
    simp [optStr_roundtrip, optCursor_roundtrip,
      decodeAll_map SelectionRange.fromJson SelectionRange.toJson
        selectionRange_roundtrip]

/-- The closed tagged union of wire messages, protocol.ts CollabMessage. -/
inductive CollabMessage where
  | join (userId username : String)
  | joinAck (userId color : String) (users : List UserInfo)
  | userJoined (user : UserInfo)
  | userLeft (userId : String)
  | userList (users : List UserInfo)
  | heartbeat
  | heartbeatAck
  | fileManifest (files : List FileInfo)
  | fileManifestRequest
  | fileRequest (paths : List String)
  | fileContent (path content : String) (encoding : Encoding)
  | fileCreate (path content : String) (encoding : Encoding) (userId : String)
  | fileDelete (path userId : String)
  | fileRename (oldPath newPath userId : String)
  | fileSave (path userId : String)
  | syncComplete
  | docEdit (path : String) (changes : List TextChange) (version : Nat)
      (userId : String)
  | docFullContent (path content : String) (version : Nat)
  | cursorUpdate (userId path : String) (cursor : CursorPosition)
      (selections : List SelectionRange)
  | activeFileChange (userId : String) (path : Option String)
  | error (message : String)
deriving DecidableEq

/-- protocol.ts serializeMessage, at the JSON value level: the JSON tree that
JSON.stringify produces for the message object, field names and tag strings
as in the MessageType enum. -/
def serializeMessage : CollabMessage → Json
  | .join uid uname =>
    .obj [("type", .str "join"), ("userId", .str uid), ("username", .str uname)]
  | .joinAck uid col users =>
    .obj [("type", .str "join_ack"), ("userId", .str uid), ("color", .str col),
          ("users", .arr (users.map UserInfo.toJson))]
  | .userJoined u =>
    .obj [("type", .str "user_joined"), ("user", u.toJson)]
  | .userLeft uid =>
    .obj [("type", .str "user_left"), ("userId", .str uid)]
  | .userList users =>
    .obj [("type", .str "user_list"), ("users", .arr (users.map UserInfo.toJson))]
  | .heartbeat => .obj [("type", .str "heartbeat")]
  | .heartbeatAck => .obj [("type", .str "heartbeat_ack")]
  | .fileManifest files =>
    .obj [("type", .str "file_manifest"),
          ("files", .arr (files.map FileInfo.toJson))]
  | .fileManifestRequest => .obj [("type", .str "file_manifest_request")]
  | .fileRequest paths =>
    .obj [("type", .str "file_request"), ("paths", .arr (paths.map Json.str))]
  | .fileContent p c e =>
    .obj [("type", .str "file_content"), ("path", .str p), ("content", .str c),
          ("encoding", e.toJson)]
  | .fileCreate p c e uid =>
    .obj [("type", .str "file_create"), ("path", .str p), ("content", .str c),
          ("encoding", e.toJson), ("userId", .str uid)]
  | .fileDelete p uid =>
    .obj [("type", .str "file_delete"), ("path", .str p), ("userId", .str uid)]
  | .fileRename o n uid =>
    .obj [("type", .str "file_rename"), ("oldPath", .str o), ("newPath", .str n),
          ("userId", .str uid)]
  | .fileSave p uid =>
    .obj [("type", .str "file_save"), ("path", .str p), ("userId", .str uid)]
  | .syncComplete => .obj [("type", .str "sync_complete")]
  | .docEdit p chs v uid =>
    .obj [("type", .str "doc_edit"), ("path", .str p),
          ("changes", .arr (chs.map TextChange.toJson)), ("version", .num v),
          ("userId", .str uid)]
  | .docFullContent p c v =>
    .obj [("type", .str "doc_full_content"), ("path", .str p),
          ("content", .str c), ("version", .num v)]
  | .cursorUpdate uid p cur sels =>
    .obj [("type", .str "cursor_update"), ("userId", .str uid), ("path", .str p),
          ("cursor", cur.toJson),
          ("selections", .arr (sels.map SelectionRange.toJson))]
  | .activeFileChange uid p =>
    .obj [("type", .str "active_file_change"), ("userId", .str uid),
          ("path", encodeOptStr p)]
  | .error m =>
    .obj [("type", .str "error"), ("message", .str m)]

def decodeJoin (j : Json) : Option CollabMessage :=
  match j.field "userId", j.field "username" with
  | some (.str uid), some (.str uname) => some (.join uid uname)
  | _, _ => none

def decodeJoinAck (j : Json) : Option CollabMessage :=
  match j.field "userId", j.field "color", j.field "users" with
  | some (.str uid), some (.str col), some (.arr us) =>
    match decodeAll UserInfo.fromJson us with
    | some users => some (.joinAck uid col users)
    | none => none
  | _, _, _ => none

def decodeUserJoined (j : Json) : Option CollabMessage :=
  match j.field "user" with
  | some ju =>
    match UserInfo.fromJson ju with
    | some u => some (.userJoined u)
    | none => none
  | none => none

def decodeUserLeft (j : Json) : Option CollabMessage :=
  match j.field "userId" with
  | some (.str uid) => some (.userLeft uid)
  | _ => none

def decodeUserList (j : Json) : Option CollabMessage :=
  match j.field "users" with
  | some (.arr us) =>
    match decodeAll UserInfo.fromJson us with
    | some users => some (.userList users)
    | none => none
  | _ => none

def decodeFileManifest (j : Json) : Option CollabMessage :=
  match j.field "files" with
  | some (.arr fs) =>
    match decodeAll FileInfo.fromJson fs with
    | some files => some (.fileManifest files)
    | none => none
  | _ => none

def decodeFileRequest (j : Json) : Option CollabMessage :=
  match j.field "paths" with
  | some (.arr ps) =>
    match decodeAll Json.asStr ps with
    | some paths => some (.fileRequest paths)
    | none => none
  | _ => none

def decodeFileContent (j : Json) : Option CollabMessage :=
  match j.field "path", j.field "content", j.field "encoding" with
  | some (.str p), some (.str c), some je =>
    match Encoding.fromJson je with
    | some e => some (.fileContent p c e)
    | none => none
  | _, _, _ => none

def decodeFileCreate (j : Json) : Option CollabMessage :=
  match j.field "path", j.field "content", j.field "encoding",
      j.field "userId" with
  | some (.str p), some (.str c), some je, some (.str uid) =>
    match Encoding.fromJson je with
    | some e => some (.fileCreate p c e uid)
    | none => none
  | _, _, _, _ => none

def decodeFileDelete (j : Json) : Option CollabMessage :=
  match j.field "path", j.field "userId" with
  | some (.str p), some (.str uid) => some (.fileDelete p uid)
  | _, _ => none

def decodeFileRename (j : Json) : Option CollabMessage :=
  match j.field "oldPath", j.field "newPath", j.field "userId" with
  | some (.str o), some (.str n), some (.str uid) => some (.fileRename o n uid)
  | _, _, _ => none

def decodeFileSave (j : Json) : Option CollabMessage :=
  match j.field "path", j.field "userId" with
  | some (.str p), some (.str uid) => some (.fileSave p uid)
  | _, _ => none

def decodeDocEdit (j : Json) : Option CollabMessage :=
  match j.field "path", j.field "changes", j.field "version",
      j.field "userId" with
  | some (.str p), some (.arr chs), some (.num v), some (.str uid) =>
    match decodeAll TextChange.fromJson chs with
    | some changes => some (.docEdit p changes v uid)
    | none => none
  | _, _, _, _ => none

def decodeDocFullContent (j : Json) : Option CollabMessage :=
  match j.field "path", j.field "content", j.field "version" with
  | some (.str p), some (.str c), some (.num v) =>
    some (.docFullContent p c v)
  | _, _, _ => none

def decodeCursorUpdate (j : Json) : Option CollabMessage :=
  match j.field "userId", j.field "path", j.field "cursor",
      j.field "selections" with
  | some (.str uid), some (.str p), some jc, some (.arr sels) =>
    match CursorPosition.fromJson jc,
        decodeAll SelectionRange.fromJson sels with
    | some cur, some sels' => some (.cursorUpdate uid p cur sels')
    | _, _ => none
  | _, _, _, _ => none

def decodeActiveFileChange (j : Json) : Option CollabMessage :=
  match j.field "userId", j.field "path" with
  | some (.str uid), some jp =>
    match decodeOptStr jp with
    | some p => some (.activeFileChange uid p)
    | none => none
  | _, _ => none

def decodeError (j : Json) : Option CollabMessage :=
  match j.field "message" with
  | some (.str m) => some (.error m)
  | _ => none

/-- protocol.ts deserializeMessage at the JSON value level: recover the
message the tree describes; none models the null result for input that does
not describe a message. -/
def deserializeMessage (j : Json) : Option CollabMessage :=
  match j.field "type" with
  | some (Json.str tag) =>
    if tag = "join" then decodeJoin j
    else if tag = "join_ack" then decodeJoinAck j
    else if tag = "user_joined" then decodeUserJoined j
    else if tag = "user_left" then decodeUserLeft j
    else if tag = "user_list" then decodeUserList j
    else if tag = "heartbeat" then some .heartbeat
    else if tag = "heartbeat_ack" then some .heartbeatAck
    else if tag = "file_manifest" then decodeFileManifest j
    else if tag = "file_manifest_request" then some .fileManifestRequest
    else if tag = "file_request" then decodeFileRequest j
    else if tag = "file_content" then decodeFileContent j
    else if tag = "file_create" then decodeFileCreate j
    else if tag = "file_delete" then decodeFileDelete j
    else if tag = "file_rename" then decodeFileRename j
    else if tag = "file_save" then decodeFileSave j
    else if tag = "sync_complete" then some .syncComplete
    else if tag = "doc_edit" then decodeDocEdit j
    else if tag = "doc_full_content" then decodeDocFullContent j
    else if tag = "cursor_update" then decodeCursorUpdate j
    else if tag = "active_file_change" then decodeActiveFileChange j
    else if tag = "error" then decodeError j
    else none
  | _ => none

/-- C9.  Encode/decode round-trip: deserializing the serialization of any
well-formed wire message yields that same message (in particular, never the
null failure result). -/
theorem serialize_roundtrip (m : CollabMessage) :
    deserializeMessage (serializeMessage m) = some m := by
  cases m with
  | join uid uname =>
    simp [serializeMessage, deserializeMessage, Json.field, getField, decodeJoin]
  | joinAck uid col users =>
    simp [serializeMessage, deserializeMessage, Json.field, getField,
      decodeJoinAck, decodeAll_map UserInfo.fromJson UserInfo.toJson
        userInfo_roundtrip]
  | userJoined u =>
    simp [serializeMessage, deserializeMessage, Json.field, getField,
      decodeUserJoined, userInfo_roundtrip]
  | userLeft uid =>
    simp [serializeMessage, deserializeMessage, Json.field, getField,
      decodeUserLeft]
  | userList users =>
    simp [serializeMessage, deserializeMessage, Json.field, getField,
      decodeUserList, decodeAll_map UserInfo.fromJson UserInfo.toJson
        userInfo_roundtrip]
  | heartbeat =>
    simp [serializeMessage, deserializeMessage, Json.field, getField]
  | heartbeatAck =>
    simp [serializeMessage, deserializeMessage, Json.field, getField]
  | fileManifest files =>
    simp [serializeMessage, deserializeMessage, Json.field, getField,
      decodeFileManifest, decodeAll_map FileInfo.fromJson FileInfo.toJson
        fileInfo_roundtrip]
  | fileManifestRequest =>
    simp [serializeMessage, deserializeMessage, Json.field, getField]
  | fileRequest paths =>
    simp [serializeMessage, deserializeMessage, Json.field, getField,
      decodeFileRequest, decodeAll_map Json.asStr Json.str (fun a => rfl)]
  | fileContent p c e =>
    simp [serializeMessage, deserializeMessage, Json.field, getField,
      decodeFileContent, encoding_roundtrip]
  | fileCreate p c e uid =>
    simp [serializeMessage, deserializeMessage, Json.field, getField,
      decodeFileCreate, encoding_roundtrip]
  | fileDelete p uid =>
    simp [serializeMessage, deserializeMessage, Json.field, getField,
      decodeFileDelete]
  | fileRename o n uid =>
    simp [serializeMessage, deserializeMessage, Json.field, getField,
      decodeFileRename]
  | fileSave p uid =>
    simp [serializeMessage, deserializeMessage, Json.field, getField,
      decodeFileSave]
  | syncComplete =>
    simp [serializeMessage, deserializeMessage, Json.field, getField]
  | docEdit p chs v uid =>
    simp [serializeMessage, deserializeMessage, Json.field, getField,
      decodeDocEdit, decodeAll_map TextChange.fromJson TextChange.toJson
        textChange_roundtrip]
  | docFullContent p c v =>
    simp [serializeMessage, deserializeMessage, Json.field, getField,
      decodeDocFullContent]
  | cursorUpdate uid p cur sels =>
    simp [serializeMessage, deserializeMessage, Json.field, getField,
      decodeCursorUpdate, cursorPosition_roundtrip,
      decodeAll_map SelectionRange.fromJson SelectionRange.toJson
        selectionRange_roundtrip]
  | activeFileChange uid p =>
    simp [serializeMessage, deserializeMessage, Json.field, getField,
      decodeActiveFileChange, optStr_roundtrip]
  | error msg =>
    simp [serializeMessage, deserializeMessage, Json.field, getField,
      decodeError]

/-! ## Host server (server.ts CollabServer)

The registry is the JS Map from userId to connection; deliveries are
(recipient userId, message) pairs in send order.  Heartbeat sweep, join
handling and client removal are modelled as state transformers emitting
their deliveries. -/

/-- One registry entry: the user record, the sweep liveness flag, and
whether the peer's socket is open (readyState === OPEN). -/
structure ClientConn where
  user : UserInfo
  isAlive : Bool
  wsOpen : Bool
deriving DecidableEq

/-- CollabServer state: host's own user entry, the client registry in Map
insertion order, and the palette cursor. -/
structure ServerState where
  hostUser : UserInfo
  clients : List (String × ClientConn)
  colorIndex : Nat
deriving DecidableEq

/-- server.ts constructor: host takes USER_COLORS[0], colorIndex starts at 1. -/
def serverInit (hostId hostName : String) : ServerState :=
  { hostUser := ⟨hostId, hostName, USER_COLORS.getD 0 "", none, none, []⟩,
    clients := [], colorIndex := 1 }

/-- server.ts getAllUsers: host first, then every live connection. -/
def getAllUsers (st : ServerState) : List UserInfo :=
  st.hostUser :: st.clients.map (fun e => e.2.user)

/-- The color the next joiner receives: USER_COLORS[colorIndex % length]. -/
def assignedColor (st : ServerState) : String :=
  USER_COLORS.getD (st.colorIndex % USER_COLORS.length) ""

/-- JS Map.set: overwrite in place keeping position, else append. -/
def mapSet (l : List (String × ClientConn)) (k : String) (v : ClientConn) :
    List (String × ClientConn) :=
  if l.any (fun e => e.1 = k) then
    l.map (fun e => if e.1 = k then (k, v) else e)
  else
    l ++ [(k, v)]

/-- server.ts sendTo: deliver to the one registered client with that id, if
its socket is open. -/
def sendTo (clients : List (String × ClientConn)) (uid : String)
    (m : CollabMessage) : List (String × CollabMessage) :=
  match clients.find? (fun e => e.1 = uid) with
  | some e => if e.2.wsOpen then [(uid, m)] else []
  | none => []

/-- server.ts broadcast: deliver to every client with an open socket. -/
def broadcastAll (clients : List (String × ClientConn)) (m : CollabMessage) :
    List (String × CollabMessage) :=
  clients.filterMap (fun e => if e.2.wsOpen then some (e.1, m) else none)

/-- server.ts broadcastExcept: deliver to every open socket except one id. -/
def broadcastExcept (clients : List (String × ClientConn)) (ex : String)
    (m : CollabMessage) : List (String × CollabMessage) :=
  clients.filterMap (fun e =>
    if e.1 ≠ ex ∧ e.2.wsOpen = true then some (e.1, m) else none)

/-- server.ts handleConnection, Join branch: assign the next palette color,
advance the cursor, register the connection (fresh socket, marked alive),
send JoinAck with the full roster to the joiner only, and broadcast
UserJoined to everyone else. -/
def handleJoin (st : ServerState) (uid uname : String) :
    ServerState × List (String × CollabMessage) :=
  let color := assignedColor st
  let user : UserInfo := ⟨uid, uname, color, none, none, []⟩
  let clients1 := mapSet st.clients uid ⟨user, true, true⟩
  let st1 := { st with clients := clients1, colorIndex := st.colorIndex + 1 }
  (st1,
    sendTo clients1 uid (CollabMessage.joinAck uid color (getAllUsers st1))
      ++ broadcastExcept clients1 uid (CollabMessage.userJoined user))

/-- server.ts removeClient: if the id is registered, delete it and broadcast
UserLeft to the remaining clients; otherwise do nothing. -/
def removeClient (st : ServerState) (cid : String) :
    ServerState × List (String × CollabMessage) :=
  if st.clients.any (fun e => e.1 = cid) then
    ({ st with clients := st.clients.filter (fun e => e.1 ≠ cid) },
      broadcastAll (st.clients.filter (fun e => e.1 ≠ cid))
        (CollabMessage.userLeft cid))
  else
    (st, [])

/-- server.ts heartbeat branch: mark the sender alive and acknowledge. -/
def handleHeartbeat (st : ServerState) (cid : String) :
    ServerState × List (String × CollabMessage) :=
  if st.clients.any (fun e => e.1 = cid) then
    ({ st with clients := st.clients.map (fun e =>
        if e.1 = cid then (e.1, { e.2 with isAlive := true }) else e) },
      sendTo st.clients cid CollabMessage.heartbeatAck)
  else
    (st, [])

/-- server.ts startHeartbeat sweep body, iterating the registry in order:
a peer not marked alive is terminated and removed (UserLeft broadcast to the
clients still present); a live peer has its flag cleared (and is pinged). -/
def sweepGo (acc : List (String × ClientConn)) :
    List (String × ClientConn) →
      List (String × ClientConn) × List (String × CollabMessage)
  | [] => (acc, [])
  | (uid, conn) :: rest =>
    if conn.isAlive then
      sweepGo (acc ++ [(uid, { conn with isAlive := false })]) rest
    else
      ((sweepGo acc rest).1,
        broadcastAll (acc ++ rest) (CollabMessage.userLeft uid)
          ++ (sweepGo acc rest).2)

/-- One 30-second heartbeat sweep over the whole registry. -/
def sweep (st : ServerState) : ServerState × List (String × CollabMessage) :=
  ({ st with clients := (sweepGo [] st.clients).1 }, (sweepGo [] st.clients).2)

/-- The registry a sweep leaves behind: live entries with cleared flags. -/
def sweepSurvivors (l : List (String × ClientConn)) :
    List (String × ClientConn) :=
  l.filterMap (fun e =>
    if e.2.isAlive then some (e.1, { e.2 with isAlive := false }) else none)

/-- Number of times one (recipient, message) delivery occurs in a send list. -/
def deliveryCount (msgs : List (String × CollabMessage))
    (d : String × CollabMessage) : Nat :=
  (msgs.filter (fun x => x = d)).length

theorem deliveryCount_append (a b : List (String × CollabMessage))
    (d : String × CollabMessage) :
    deliveryCount (a ++ b) d = deliveryCount a d + deliveryCount b d := by
  simp [deliveryCount, List.filter_append]

theorem sweepGo_clients (l acc : List (String × ClientConn)) :
    (sweepGo acc l).1 = acc ++ sweepSurvivors l := by
  induction l generalizing acc with
  | nil => simp [sweepGo, sweepSurvivors]
  | cons e rest ih =>
    obtain ⟨uid, conn⟩ := e
    cases hA : conn.isAlive with
    | true =>
      simp only [sweepGo, hA, if_pos]
      rw [ih]
      simp [sweepSurvivors, hA]
    | false =>
      simp only [sweepGo, hA, Bool.false_eq_true, if_neg, not_false_iff]
      rw [ih]
      simp [sweepSurvivors, hA]

theorem deliveryCount_cons (d' : String × CollabMessage)
    (rest : List (String × CollabMessage)) (d : String × CollabMessage) :
    deliveryCount (d' :: rest) d =
      (if d' = d then 1 else 0) + deliveryCount rest d := by
  simp only [deliveryCount, List.filter_cons]
  by_cases h : d' = d
  · simp [h, Nat.add_comm]
  · simp [h]

theorem broadcastAll_cons (e : String × ClientConn)
    (rest : List (String × ClientConn)) (m : CollabMessage) :
    broadcastAll (e :: rest) m =
      (if e.2.wsOpen = true then [(e.1, m)] else []) ++ broadcastAll rest m := by
  simp only [broadcastAll, List.filterMap_cons]
  cases ho : e.2.wsOpen <;> simp

theorem broadcastAll_count_zero_key (l : List (String × ClientConn))
    (m x : CollabMessage) (p : String) (hp : ∀ e ∈ l, e.1 ≠ p) :
    deliveryCount (broadcastAll l m) (p, x) = 0 := by
  induction l with
  | nil => rfl
  | cons e rest ih =>
    have hne : e.1 ≠ p := hp e (List.mem_cons_self _ _)
    have htl : deliveryCount (broadcastAll rest m) (p, x) = 0 :=
      ih (fun e' he' => hp e' (List.mem_cons_of_mem _ he'))
    rw [broadcastAll_cons, deliveryCount_append, htl]
    cases ho : e.2.wsOpen <;>
      simp [deliveryCount_cons, deliveryCount, hne, Ne.symm hne]

theorem broadcastAll_count_zero_msg (l : List (String × ClientConn))
    (m m' : CollabMessage) (p : String) (hm : m ≠ m') :
    deliveryCount (broadcastAll l m) (p, m') = 0 := by
  induction l with
  | nil => rfl
  | cons e rest ih =>
    rw [broadcastAll_cons, deliveryCount_append, ih]
    cases ho : e.2.wsOpen <;>
      simp [deliveryCount_cons, deliveryCount, hm]

theorem broadcastAll_count_one (l : List (String × ClientConn))
    (m : CollabMessage) (p : String) (pc : ClientConn)
    (hnd : (l.map Prod.fst).Nodup) (hmem : (p, pc) ∈ l)
    (hopen : pc.wsOpen = true) :
    deliveryCount (broadcastAll l m) (p, m) = 1 := by
  induction l with
  | nil => simp at hmem
  | cons e rest ih =>
    obtain ⟨q, qc⟩ := e
    simp only [List.map_cons, List.nodup_cons, List.mem_map] at hnd
    obtain ⟨hqnot, hndrest⟩ := hnd
    rcases List.mem_cons.mp hmem with heq | hmem'
    · injection heq with h1 h2
      subst h1
      subst h2
      have hz : deliveryCount (broadcastAll rest m) (p, m) = 0 := by
        apply broadcastAll_count_zero_key
        intro e' he' hkey
        exact hqnot ⟨e', he', hkey⟩
      rw [broadcastAll_cons, deliveryCount_append, hz]
      simp [hopen, deliveryCount_cons, deliveryCount]
    · have hqp : q ≠ p := by
        intro h
        subst h
        exact hqnot ⟨(q, pc), hmem', rfl⟩
      rw [broadcastAll_cons, deliveryCount_append, ih hndrest hmem']
      cases ho : qc.wsOpen <;>
        simp [deliveryCount_cons, deliveryCount, hqp, Ne.symm hqp]

theorem assoc_key_unique {β : Type} (l : List (String × β))
    (hnd : (l.map Prod.fst).Nodup) (k : String) (a b : β)
    (ha : (k, a) ∈ l) (hb : (k, b) ∈ l) : a = b := by
  have h := List.inj_on_of_nodup_map hnd ha hb rfl
  injection h

theorem sweepGo_count_zero (l acc : List (String × ClientConn)) (c p : String)
    (hc : ∀ e ∈ l, e.1 ≠ c) :
    deliveryCount (sweepGo acc l).2 (p, CollabMessage.userLeft c) = 0 := by
  induction l generalizing acc with
  | nil => rfl
  | cons e rest ih =>
    obtain ⟨uid, conn⟩ := e
    have huc : uid ≠ c := hc (uid, conn) (List.mem_cons_self _ _)
    have hrest : ∀ e ∈ rest, e.1 ≠ c :=
      fun e' he' => hc e' (List.mem_cons_of_mem _ he')
    cases hA : conn.isAlive with
    | true =>
      simp only [sweepGo, hA, if_pos]
      exact ih _ hrest
    | false =>
      simp only [sweepGo, hA, Bool.false_eq_true, if_neg, not_false_iff]
      rw [deliveryCount_append, ih _ hrest,
        broadcastAll_count_zero_msg _ _ _ _ (by simp [huc])]

theorem sweepGo_count_one (l : List (String × ClientConn)) :
    ∀ (acc : List (String × ClientConn)) (c : String) (cdead : ClientConn)
      (p : String) (pc : ClientConn),
    ((acc ++ l).map Prod.fst).Nodup →
    (c, cdead) ∈ l → cdead.isAlive = false →
    ((p, pc) ∈ acc ∨ ((p, pc) ∈ l ∧ pc.isAlive = true)) →
    pc.wsOpen = true →
    deliveryCount (sweepGo acc l).2 (p, CollabMessage.userLeft c) = 1 := by
  induction l with
  | nil =>
    intro acc c cdead p pc hnd hc hcdead hp hopen
    simp at hc
  | cons e rest ih =>
    intro acc c cdead p pc hnd hc hcdead hp hopen
    obtain ⟨uid, conn⟩ := e
    simp only [List.map_append, List.map_cons] at hnd
    cases hA : conn.isAlive with
    | true =>
      have hc' : (c, cdead) ∈ rest := by
        rcases List.mem_cons.mp hc with heq | h
        · injection heq with h1 h2
          subst h2
          rw [hA] at hcdead
          cases hcdead
        · exact h
      simp only [sweepGo, hA, if_pos]
      have hnd' : (((acc ++ [(uid, { conn with isAlive := false })]) ++ rest).map
          Prod.fst).Nodup := by
        simp only [List.map_append, List.map_cons, List.map_nil,
          List.append_assoc, List.nil_append, List.singleton_append]
        simpa using hnd
      rcases hp with hacc | ⟨hl, halive⟩
      · exact ih _ c cdead p pc hnd' hc' hcdead
          (Or.inl (List.mem_append_left _ hacc)) hopen
      · rcases List.mem_cons.mp hl with heq | hrest
        · injection heq with h1 h2
          subst h1
          subst h2
          refine ih _ c cdead p { pc with isAlive := false } hnd' hc' hcdead
            (Or.inl (List.mem_append_right _ (List.mem_singleton.mpr rfl)))
            hopen
        · exact ih _ c cdead p pc hnd' hc' hcdead (Or.inr ⟨hrest, halive⟩) hopen
    | false =>
      simp only [sweepGo, hA, Bool.false_eq_true, if_neg, not_false_iff]
      have hndar : ((acc ++ rest).map Prod.fst).Nodup := by
        rw [List.map_append]
        refine List.Nodup.sublist ?_ (by simpa using hnd)
        exact (List.sublist_cons_self _ _).append_left _
      by_cases huc : uid = c
      · subst huc
        have hcnotrest : ∀ e ∈ rest, e.1 ≠ uid := by
          intro e' he' hk
          have : uid ∈ rest.map Prod.fst := List.mem_map.mpr ⟨e', he', hk⟩
          have hnd2 : (uid :: rest.map Prod.fst).Nodup :=
            (List.nodup_append.mp (by simpa using hnd)).2.1
          exact (List.nodup_cons.mp hnd2).1 this
        have hmemp : (p, pc) ∈ acc ++ rest := by
          rcases hp with hacc | ⟨hl, halive⟩
          · exact List.mem_append_left _ hacc
          · rcases List.mem_cons.mp hl with heq | hrest
            · injection heq with h1 h2
              subst h2
              rw [hA] at halive
              cases halive
            · exact List.mem_append_right _ hrest
        rw [deliveryCount_append,
          broadcastAll_count_one _ _ p pc hndar hmemp hopen,
          sweepGo_count_zero rest acc uid p hcnotrest]
      · have hc' : (c, cdead) ∈ rest := by
          rcases List.mem_cons.mp hc with heq | h
          · injection heq with h1 h2
            exact absurd h1.symm huc
          · exact h
        have hp' : (p, pc) ∈ acc ∨ ((p, pc) ∈ rest ∧ pc.isAlive = true) := by
          rcases hp with hacc | ⟨hl, halive⟩
          · exact Or.inl hacc
          · rcases List.mem_cons.mp hl with heq | hrest
            · injection heq with h1 h2
              subst h2
              rw [hA] at halive
              cases halive
            · exact Or.inr ⟨hrest, halive⟩
        rw [deliveryCount_append,
          broadcastAll_count_zero_msg _ _ _ p (by simp [huc]),
          ih _ c cdead p pc (by simpa using hndar) hc' hcdead hp' hopen]

theorem mem_sweepSurvivors (l : List (String × ClientConn)) (p : String)
    (pc : ClientConn) :
    (p, pc) ∈ sweepSurvivors l ↔
      ∃ pc0, (p, pc0) ∈ l ∧ pc0.isAlive = true
        ∧ pc = { pc0 with isAlive := false } := by
  simp only [sweepSurvivors, List.mem_filterMap]
  constructor
  · rintro ⟨⟨q, qc⟩, he, hf⟩
    split at hf
    · injection hf with h
      injection h with h1 h2
      subst h1
      exact ⟨qc, he, by assumption, h2.symm⟩
    · cases hf
  · rintro ⟨pc0, hm, hA, rfl⟩
    exact ⟨(p, pc0), hm, by simp [hA]⟩

theorem sweepSurvivors_keys_sublist (l : List (String × ClientConn)) :
    List.Sublist ((sweepSurvivors l).map Prod.fst) (l.map Prod.fst) := by
  induction l with
  | nil => simp [sweepSurvivors]
  | cons e rest ih =>
    simp only [sweepSurvivors, List.filterMap_cons] at *
    by_cases hA : e.2.isAlive = true
    · rw [if_pos hA]
      simpa using List.Sublist.cons₂ e.1 ih
    · rw [if_neg hA]
      simpa using List.Sublist.cons e.1 ih

theorem sweep_clients (st : ServerState) :
    (sweep st).1.clients = sweepSurvivors st.clients := by
  show (sweepGo [] st.clients).1 = sweepSurvivors st.clients
  rw [sweepGo_clients]
  rfl

theorem sweep_msgs (st : ServerState) :
    (sweep st).2 = (sweepGo [] st.clients).2 := rfl

theorem handleHeartbeat_keys (st : ServerState) (cid : String) :
    (handleHeartbeat st cid).1.clients.map Prod.fst
      = st.clients.map Prod.fst := by
  by_cases h : (st.clients.any (fun e => e.1 = cid)) = true
  · simp only [handleHeartbeat, if_pos h, List.map_map]
    apply List.map_congr_left
    intro e he
    by_cases hk : e.1 = cid
    · simp [hk]
    · simp [hk]
  · simp only [handleHeartbeat, if_neg h]

theorem handleHeartbeat_mem_of_ne (st : ServerState) (cid p : String)
    (pc : ClientConn) (hne : p ≠ cid) :
    ((p, pc) ∈ (handleHeartbeat st cid).1.clients ↔ (p, pc) ∈ st.clients) := by
  by_cases h : (st.clients.any (fun e => e.1 = cid)) = true
  · simp only [handleHeartbeat, if_pos h]
    constructor
    · intro hm
      rw [List.mem_map] at hm
      obtain ⟨e, he, hf⟩ := hm
      by_cases hk : e.1 = cid
      · rw [if_pos hk] at hf
        injection hf with h1 h2
        exact absurd (h1 ▸ hk) hne
      · rw [if_neg hk] at hf
        exact hf ▸ he
    · intro hm
      rw [List.mem_map]
      refine ⟨(p, pc), hm, ?_⟩
      rw [if_neg]
      exact hne
  · simp only [handleHeartbeat, if_neg h]

/-- The heartbeats the host receives between two sweeps, in arrival order. -/
def applyHeartbeats (st : ServerState) (ids : List String) : ServerState :=
  ids.foldl (fun s i => (handleHeartbeat s i).1) st

theorem applyHeartbeats_keys (ids : List String) (st : ServerState) :
    (applyHeartbeats st ids).clients.map Prod.fst
      = st.clients.map Prod.fst := by
  induction ids generalizing st with
  | nil => rfl
  | cons i rest ih =>
    show (applyHeartbeats (handleHeartbeat st i).1 rest).clients.map Prod.fst
      = st.clients.map Prod.fst
    rw [ih, handleHeartbeat_keys]

theorem applyHeartbeats_mem_of_not_mem (ids : List String) (st : ServerState)
    (p : String) (pc : ClientConn) (hni : p ∉ ids) :
    ((p, pc) ∈ (applyHeartbeats st ids).clients ↔ (p, pc) ∈ st.clients) := by
  induction ids generalizing st with
  | nil => exact Iff.rfl
  | cons i rest ih =>
    have hne : p ≠ i := fun h => hni (h ▸ List.mem_cons_self i rest)
    have hrest : p ∉ rest := fun h => hni (List.mem_cons_of_mem _ h)
    show (p, pc) ∈ (applyHeartbeats (handleHeartbeat st i).1 rest).clients ↔ _
    rw [ih _ hrest, handleHeartbeat_mem_of_ne st i p pc hne]

theorem removeClient_of_absent (st : ServerState) (c : String)
    (h : ∀ e ∈ st.clients, e.1 ≠ c) : removeClient st c = (st, []) := by
  have hany : (st.clients.any (fun e => e.1 = c)) = false := by
    rw [List.any_eq_false]
    intro e he
    simpa using h e he
  simp only [removeClient, hany]
  simp

/-- C5.  Heartbeat eviction: a registered peer that is marked alive, then
sends zero heartbeats across two consecutive sweep intervals (other peers may
heartbeat freely), survives the first sweep with its flag cleared, is removed
from the registry by the second sweep, every remaining open-socket peer
observes its UserLeft exactly once, and the subsequent socket-close handler
removes nothing and broadcasts nothing more. -/
theorem heartbeatEviction_correct (st : ServerState) (c : String)
    (cc : ClientConn) (ids : List String)
    (hnd : (st.clients.map Prod.fst).Nodup)
    (hmem : (c, cc) ∈ st.clients) (halive : cc.isAlive = true)
    (hni : c ∉ ids) :
    ((c, { cc with isAlive := false }) ∈ (sweep st).1.clients)
    ∧ ((c, { cc with isAlive := false }) ∈
        (applyHeartbeats (sweep st).1 ids).clients)
    ∧ (∀ e ∈ (sweep (applyHeartbeats (sweep st).1 ids)).1.clients, e.1 ≠ c)
    ∧ (∀ p pc, (p, pc) ∈ (sweep (applyHeartbeats (sweep st).1 ids)).1.clients →
        pc.wsOpen = true →
        deliveryCount (sweep (applyHeartbeats (sweep st).1 ids)).2
          (p, CollabMessage.userLeft c) = 1)
    ∧ removeClient (sweep (applyHeartbeats (sweep st).1 ids)).1 c
        = ((sweep (applyHeartbeats (sweep st).1 ids)).1, []) := by
  have h1 : (c, { cc with isAlive := false }) ∈ (sweep st).1.clients := by
    rw [sweep_clients]
    exact (mem_sweepSurvivors _ _ _).mpr ⟨cc, hmem, halive, rfl⟩
  have hnd1 : ((sweep st).1.clients.map Prod.fst).Nodup := by
    rw [sweep_clients]
    exact List.Nodup.sublist (sweepSurvivors_keys_sublist _) hnd
  have h2 : (c, { cc with isAlive := false }) ∈
      (applyHeartbeats (sweep st).1 ids).clients :=
    (applyHeartbeats_mem_of_not_mem ids _ c _ hni).mpr h1
  have hnd2 : ((applyHeartbeats (sweep st).1 ids).clients.map Prod.fst).Nodup := by
    rw [applyHeartbeats_keys]
    exact hnd1
  have h3 : ∀ e ∈ (sweep (applyHeartbeats (sweep st).1 ids)).1.clients,
      e.1 ≠ c := by
    rintro ⟨p0, pc0⟩ he hk
    rw [sweep_clients] at he
    subst hk
    obtain ⟨pc1, hm1, halive1, -⟩ := (mem_sweepSurvivors _ _ _).mp he
    have := assoc_key_unique _ hnd2 p0 pc1 { cc with isAlive := false } hm1 h2
    rw [this] at halive1
    cases halive1
  have h4 : ∀ p pc,
      (p, pc) ∈ (sweep (applyHeartbeats (sweep st).1 ids)).1.clients →
      pc.wsOpen = true →
      deliveryCount (sweep (applyHeartbeats (sweep st).1 ids)).2
        (p, CollabMessage.userLeft c) = 1 := by
    intro p pc hpm hopen
    rw [sweep_clients] at hpm
    obtain ⟨pc0, hm0, halive0, hpc⟩ := (mem_sweepSurvivors _ _ _).mp hpm
    have hopen0 : pc0.wsOpen = true := by
      rw [hpc] at hopen
      exact hopen
    rw [sweep_msgs]
    exact sweepGo_count_one _ [] c { cc with isAlive := false } p pc0
      (by simpa using hnd2) h2 rfl (Or.inr ⟨hm0, halive0⟩) hopen0
  exact ⟨h1, h2, h3, h4, removeClient_of_absent _ c h3⟩

/-- C5 witness: host with silent peer c1 and peer p2 that heartbeats between
the sweeps; after the second sweep c1 is gone, p2 got UserLeft c1 exactly
once, and the close handler is a no-op. -/
theorem heartbeatEviction_correct_witness :
    (((⟨⟨"h", "host", "#FF6B6B", none, none, []⟩,
        [("c1", ⟨⟨"c1", "alice", "#4ECDC4", none, none, []⟩, true, true⟩),
         ("p2", ⟨⟨"p2", "bob", "#45B7D1", none, none, []⟩, true, true⟩)],
        3⟩ : ServerState).clients.map Prod.fst).Nodup
      ∧ ("c1" : String) ∉ (["p2"] : List String))
    ∧ (("c1", (⟨⟨"c1", "alice", "#4ECDC4", none, none, []⟩, false, true⟩ : ClientConn)) ∈
        (sweep ⟨⟨"h", "host", "#FF6B6B", none, none, []⟩,
          [("c1", ⟨⟨"c1", "alice", "#4ECDC4", none, none, []⟩, true, true⟩),
           ("p2", ⟨⟨"p2", "bob", "#45B7D1", none, none, []⟩, true, true⟩)],
          3⟩).1.clients)
    ∧ deliveryCount
        (sweep (applyHeartbeats
          (sweep ⟨⟨"h", "host", "#FF6B6B", none, none, []⟩,
            [("c1", ⟨⟨"c1", "alice", "#4ECDC4", none, none, []⟩, true, true⟩),
             ("p2", ⟨⟨"p2", "bob", "#45B7D1", none, none, []⟩, true, true⟩)],
            3⟩).1 ["p2"])).2
        ("p2", CollabMessage.userLeft "c1") = 1
    ∧ removeClient
        (sweep (applyHeartbeats
          (sweep ⟨⟨"h", "host", "#FF6B6B", none, none, []⟩,
            [("c1", ⟨⟨"c1", "alice", "#4ECDC4", none, none, []⟩, true, true⟩),
             ("p2", ⟨⟨"p2", "bob", "#45B7D1", none, none, []⟩, true, true⟩)],
            3⟩).1 ["p2"])).1 "c1"
      = ((sweep (applyHeartbeats
          (sweep ⟨⟨"h", "host", "#FF6B6B", none, none, []⟩,
            [("c1", ⟨⟨"c1", "alice", "#4ECDC4", none, none, []⟩, true, true⟩),
             ("p2", ⟨⟨"p2", "bob", "#45B7D1", none, none, []⟩, true, true⟩)],
            3⟩).1 ["p2"])).1, []) := by
  have h := heartbeatEviction_correct
    ⟨⟨"h", "host", "#FF6B6B", none, none, []⟩,
      [("c1", ⟨⟨"c1", "alice", "#4ECDC4", none, none, []⟩, true, true⟩),
       ("p2", ⟨⟨"p2", "bob", "#45B7D1", none, none, []⟩, true, true⟩)],
      3⟩ "c1" ⟨⟨"c1", "alice", "#4ECDC4", none, none, []⟩, true, true⟩ ["p2"]
    (by decide) (by decide) rfl (by decide)
  refine ⟨⟨by decide, by decide⟩, h.1, ?_, h.2.2.2.2⟩
  exact h.2.2.2.1 "p2" ⟨⟨"p2", "bob", "#45B7D1", none, none, []⟩, false, true⟩
    (by decide) rfl

theorem mapSet_fresh (l : List (String × ClientConn)) (k : String)
    (v : ClientConn) (hfresh : ∀ e ∈ l, e.1 ≠ k) :
    mapSet l k v = l ++ [(k, v)] := by
  have hany : (l.any (fun e => e.1 = k)) = false := by
    rw [List.any_eq_false]
    intro e he
    simpa using hfresh e he
  simp [mapSet, hany]

theorem sendTo_append_fresh (l : List (String × ClientConn)) (uid : String)
    (conn : ClientConn) (m : CollabMessage) (hfresh : ∀ e ∈ l, e.1 ≠ uid) :
    sendTo (l ++ [(uid, conn)]) uid m
      = if conn.wsOpen = true then [(uid, m)] else [] := by
  have hfind : (l ++ [(uid, conn)]).find? (fun e => e.1 = uid)
      = some (uid, conn) := by
    induction l with
    | nil => simp [List.find?]
    | cons e rest ih =>
      have hne : e.1 ≠ uid := hfresh e (List.mem_cons_self _ _)
      rw [List.cons_append, List.find?_cons_of_neg _ (by simpa using hne)]
      exact ih (fun e' he' => hfresh e' (List.mem_cons_of_mem _ he'))
  simp [sendTo, hfind]

theorem broadcastExcept_cons (e : String × ClientConn)
    (rest : List (String × ClientConn)) (ex : String) (m : CollabMessage) :
    broadcastExcept (e :: rest) ex m
      = (if e.1 ≠ ex ∧ e.2.wsOpen = true then [(e.1, m)] else [])
        ++ broadcastExcept rest ex m := by
  simp only [broadcastExcept, List.filterMap_cons]
  by_cases h : e.1 ≠ ex ∧ e.2.wsOpen = true
  · simp [h]
  · simp [h]

theorem broadcastExcept_append_self (l : List (String × ClientConn))
    (uid : String) (conn : ClientConn) (m : CollabMessage)
    (hfresh : ∀ e ∈ l, e.1 ≠ uid) :
    broadcastExcept (l ++ [(uid, conn)]) uid m = broadcastAll l m := by
  induction l with
  | nil => simp [broadcastExcept, broadcastAll]
  | cons e rest ih =>
    have hne : e.1 ≠ uid := hfresh e (List.mem_cons_self _ _)
    have ih' := ih (fun e' he' => hfresh e' (List.mem_cons_of_mem _ he'))
    rw [List.cons_append, broadcastExcept_cons, broadcastAll_cons, ih']
    have hfe : (if e.1 ≠ uid ∧ e.2.wsOpen = true then [(e.1, m)] else [])
        = (if e.2.wsOpen = true then [(e.1, m)] else []) := by
      by_cases ho : e.2.wsOpen = true
      · rw [if_pos ⟨hne, ho⟩, if_pos ho]
      · rw [if_neg (fun h => ho h.2), if_neg ho]
    rw [hfe]

theorem mem_broadcastAll (l : List (String × ClientConn)) (m : CollabMessage)
    (d : String × CollabMessage) :
    d ∈ broadcastAll l m ↔ ∃ e ∈ l, e.2.wsOpen = true ∧ d = (e.1, m) := by
  simp only [broadcastAll, List.mem_filterMap]
  constructor
  · rintro ⟨e, he, hf⟩
    split at hf
    · injection hf with h
      exact ⟨e, he, by assumption, h.symm⟩
    · cases hf
  · rintro ⟨e, he, ho, rfl⟩
    exact ⟨e, he, by rw [if_pos ho]⟩

theorem handleJoin_clients (st : ServerState) (uid uname : String)
    (hfresh : ∀ e ∈ st.clients, e.1 ≠ uid) :
    (handleJoin st uid uname).1.clients
      = st.clients ++
        [(uid, ⟨⟨uid, uname, assignedColor st, none, none, []⟩, true, true⟩)] := by
  show mapSet st.clients uid _ = _
  exact mapSet_fresh _ _ _ hfresh

theorem handleJoin_state (st : ServerState) (uid uname : String)
    (hfresh : ∀ e ∈ st.clients, e.1 ≠ uid) :
    (handleJoin st uid uname).1
      = { st with
          clients := st.clients ++
            [(uid, ⟨⟨uid, uname, assignedColor st, none, none, []⟩, true, true⟩)],
          colorIndex := st.colorIndex + 1 } := by
  simp only [handleJoin]
  rw [mapSet_fresh _ _ _ hfresh]

theorem handleJoin_msgs (st : ServerState) (uid uname : String)
    (hfresh : ∀ e ∈ st.clients, e.1 ≠ uid) :
    (handleJoin st uid uname).2
      = (uid, CollabMessage.joinAck uid (assignedColor st)
          (getAllUsers (handleJoin st uid uname).1))
        :: broadcastAll st.clients
          (CollabMessage.userJoined ⟨uid, uname, assignedColor st, none, none, []⟩) := by
  rw [handleJoin_state st uid uname hfresh]
  simp only [handleJoin]
  rw [mapSet_fresh _ _ _ hfresh, sendTo_append_fresh _ _ _ _ hfresh,
    broadcastExcept_append_self _ _ _ _ hfresh]
  rfl

/-- C7.  Join handling: the host answers a fresh peer's Join with exactly one
JoinAck, addressed to the joiner alone, carrying the full roster (host entry,
every prior connection, and the joiner); every delivery to anyone else is the
UserJoined notice with the new user's entry, delivered exactly once to each
other open-socket peer; and the joiner never receives the UserJoined notice. -/
theorem handleJoin_correct (st : ServerState) (uid uname : String)
    (hnd : (st.clients.map Prod.fst).Nodup)
    (hfresh : ∀ e ∈ st.clients, e.1 ≠ uid) :
    ((handleJoin st uid uname).2.filter (fun d => d.1 = uid))
      = [(uid, CollabMessage.joinAck uid (assignedColor st)
          (getAllUsers (handleJoin st uid uname).1))]
    ∧ getAllUsers (handleJoin st uid uname).1
        = st.hostUser :: (st.clients.map (fun e => e.2.user)
            ++ [⟨uid, uname, assignedColor st, none, none, []⟩])
    ∧ (∀ d ∈ (handleJoin st uid uname).2, d.1 ≠ uid →
        d.2 = CollabMessage.userJoined
          ⟨uid, uname, assignedColor st, none, none, []⟩)
    ∧ (∀ p pc, (p, pc) ∈ st.clients → pc.wsOpen = true →
        deliveryCount (handleJoin st uid uname).2
          (p, CollabMessage.userJoined
            ⟨uid, uname, assignedColor st, none, none, []⟩) = 1)
    ∧ (∀ x, (uid, CollabMessage.userJoined x) ∉ (handleJoin st uid uname).2) := by
  refine ⟨?_, ?_, ?_, ?_, ?_⟩
  · rw [handleJoin_msgs st uid uname hfresh, List.filter_cons]
    rw [if_pos (by simp)]
    have hrest : (broadcastAll st.clients
        (CollabMessage.userJoined
          ⟨uid, uname, assignedColor st, none, none, []⟩)).filter
        (fun d => d.1 = uid) = [] := by
      rw [List.filter_eq_nil_iff]
      intro d hd
      obtain ⟨e, he, -, rfl⟩ := (mem_broadcastAll _ _ _).mp hd
      simpa using hfresh e he
    rw [hrest]
  · rw [handleJoin_state st uid uname hfresh]
    simp [getAllUsers]
  · intro d hd hne
    rw [handleJoin_msgs st uid uname hfresh] at hd
    rcases List.mem_cons.mp hd with rfl | hd
    · exact absurd rfl hne
    · obtain ⟨e, he, -, rfl⟩ := (mem_broadcastAll _ _ _).mp hd
      rfl
  · intro p pc hmem hopen
    rw [handleJoin_msgs st uid uname hfresh, deliveryCount_cons,
      if_neg (by simp), broadcastAll_count_one _ _ p pc hnd hmem hopen]
  · intro x hmem
    rw [handleJoin_msgs st uid uname hfresh] at hmem
    rcases List.mem_cons.mp hmem with heq | hmem
    · injection heq with h1 h2
      cases h2
    · obtain ⟨e, he, -, heq⟩ := (mem_broadcastAll _ _ _).mp hmem
      injection heq with h1 h2
      exact hfresh e he h1.symm

/-- C7 witness: a host with one connected peer p1; u2 joins. -/
theorem handleJoin_correct_witness :
    ((((⟨⟨"h", "host", "#FF6B6B", none, none, []⟩,
        [("p1", ⟨⟨"p1", "bob", "#4ECDC4", none, none, []⟩, true, true⟩)],
        2⟩ : ServerState).clients.map Prod.fst).Nodup)
      ∧ (∀ e ∈ (⟨⟨"h", "host", "#FF6B6B", none, none, []⟩,
          [("p1", ⟨⟨"p1", "bob", "#4ECDC4", none, none, []⟩, true, true⟩)],
          2⟩ : ServerState).clients, e.1 ≠ "u2"))
    ∧ ((handleJoin ⟨⟨"h", "host", "#FF6B6B", none, none, []⟩,
        [("p1", ⟨⟨"p1", "bob", "#4ECDC4", none, none, []⟩, true, true⟩)],
        2⟩ "u2" "carol").2.filter (fun d => d.1 = "u2"))
      = [("u2", CollabMessage.joinAck "u2"
          (assignedColor ⟨⟨"h", "host", "#FF6B6B", none, none, []⟩,
            [("p1", ⟨⟨"p1", "bob", "#4ECDC4", none, none, []⟩, true, true⟩)], 2⟩)
          (getAllUsers (handleJoin ⟨⟨"h", "host", "#FF6B6B", none, none, []⟩,
            [("p1", ⟨⟨"p1", "bob", "#4ECDC4", none, none, []⟩, true, true⟩)],
            2⟩ "u2" "carol").1))]
    ∧ deliveryCount (handleJoin ⟨⟨"h", "host", "#FF6B6B", none, none, []⟩,
        [("p1", ⟨⟨"p1", "bob", "#4ECDC4", none, none, []⟩, true, true⟩)],
        2⟩ "u2" "carol").2
        ("p1", CollabMessage.userJoined
          ⟨"u2", "carol",
            assignedColor ⟨⟨"h", "host", "#FF6B6B", none, none, []⟩,
              [("p1", ⟨⟨"p1", "bob", "#4ECDC4", none, none, []⟩, true, true⟩)], 2⟩,
            none, none, []⟩) = 1
    ∧ ("u2", CollabMessage.userJoined
          ⟨"u2", "carol",
            assignedColor ⟨⟨"h", "host", "#FF6B6B", none, none, []⟩,
              [("p1", ⟨⟨"p1", "bob", "#4ECDC4", none, none, []⟩, true, true⟩)], 2⟩,
            none, none, []⟩)
        ∉ (handleJoin ⟨⟨"h", "host", "#FF6B6B", none, none, []⟩,
            [("p1", ⟨⟨"p1", "bob", "#4ECDC4", none, none, []⟩, true, true⟩)],
            2⟩ "u2" "carol").2 := by
  have h := handleJoin_correct
    ⟨⟨"h", "host", "#FF6B6B", none, none, []⟩,
      [("p1", ⟨⟨"p1", "bob", "#4ECDC4", none, none, []⟩, true, true⟩)], 2⟩
    "u2" "carol" (by decide) (by decide)
  exact ⟨⟨by decide, by decide⟩, h.1,
    h.2.2.2.1 "p1" ⟨⟨"p1", "bob", "#4ECDC4", none, none, []⟩, true, true⟩
      (by decide) rfl,
    h.2.2.2.2 _⟩

/-! ## Color assignment over join/leave sequences (server.ts) -/

/-- Registry-changing events the host processes: a peer joining (Join
message) or leaving (connection loss / removal). -/
inductive HostEvent where
  | join (uid uname : String)
  | leave (uid : String)
deriving DecidableEq

def stepHost (st : ServerState) : HostEvent → ServerState
  | HostEvent.join uid uname => (handleJoin st uid uname).1
  | HostEvent.leave uid => (removeClient st uid).1

def runHost (st : ServerState) (evs : List HostEvent) : ServerState :=
  evs.foldl stepHost st

/-- Eleven join-then-leave churns: each join advances colorIndex by one and
each leave puts the registry back to empty without moving it. -/
def churnEvents : List HostEvent :=
  (List.range 11).flatMap
    (fun i => [HostEvent.join (toString i) "n", HostEvent.leave (toString i)])

/-- C6 counterexample.  After eleven join/leave churns the host is the only
live user (registry empty, 2 live users after the next join, palette size
12), yet the next joiner is assigned USER_COLORS[0] — the color the live
host holds.  The claim's no-reuse-unless-exhausted guarantee fails. -/
theorem colorAssignment_counterexample :
    (runHost (serverInit "host" "hn") churnEvents).clients = []
    ∧ (getAllUsers (runHost (serverInit "host" "hn") churnEvents)).length + 1
        ≤ USER_COLORS.length
    ∧ assignedColor (runHost (serverInit "host" "hn") churnEvents)
        = (serverInit "host" "hn").hostUser.color
    ∧ ((handleJoin (runHost (serverInit "host" "hn") churnEvents)
        "u12" "n").1.clients.map (fun e => e.2.user.color))
        = [(serverInit "host" "hn").hostUser.color] := by
  refine ⟨by decide, by decide, by decide, by decide⟩

/-- C6 as amended.  The color assigned to a joiner is the palette entry at
the monotonically advancing index taken modulo the palette size, the index
advances by exactly one per join and is never moved by leaves (over any event
sequence it advances by exactly the number of joins, never resetting), and
the host holds palette entry 0; but since leaves do not return colors, a
color held by a live user can be reassigned to a new joiner once the index
wraps, even when the palette is not exhausted. -/
theorem colorAssignment_amended (st : ServerState) (uid uname : String)
    (evs : List HostEvent) :
    assignedColor st = USER_COLORS.getD (st.colorIndex % USER_COLORS.length) ""
    ∧ (handleJoin st uid uname).1.colorIndex = st.colorIndex + 1
    ∧ ((∀ e ∈ st.clients, e.1 ≠ uid) →
        (uid, (⟨⟨uid, uname, assignedColor st, none, none, []⟩, true, true⟩
          : ClientConn)) ∈ (handleJoin st uid uname).1.clients)
    ∧ (removeClient st uid).1.colorIndex = st.colorIndex
    ∧ (runHost st evs).colorIndex = st.colorIndex +
        (evs.filter (fun e => match e with
          | HostEvent.join _ _ => true
          | _ => false)).length
    ∧ (serverInit uid uname).hostUser.color = USER_COLORS.getD 0 "" := by
  refine ⟨rfl, rfl, ?_, ?_, ?_, rfl⟩
  · intro hfresh
    rw [handleJoin_state st uid uname hfresh]
    exact List.mem_append_right _ (List.mem_singleton.mpr rfl)
  · simp only [removeClient]
    split <;> rfl
  · induction evs generalizing st with
    | nil => simp [runHost]
    | cons e rest ih =>
      show (runHost (stepHost st e) rest).colorIndex = _
      rw [ih (stepHost st e)]
      cases e with
      | join u n =>
        have hstep : (stepHost st (HostEvent.join u n)).colorIndex
            = st.colorIndex + 1 := rfl
        rw [hstep, List.filter_cons]
        simp
        omega
      | leave u =>
        have hstep : (stepHost st (HostEvent.leave u)).colorIndex
            = st.colorIndex := by
          show (removeClient st u).1.colorIndex = st.colorIndex
          simp only [removeClient]
          split <;> rfl
        rw [hstep, List.filter_cons]
        simp

/-- C6 amended-claim witness: the color handed to a fresh joiner at
colorIndex 2 is palette entry 2, the cursor advances, leaves do not move it,
and the host holds entry 0. -/
theorem colorAssignment_amended_witness :
    (∀ e ∈ ([("p1", (⟨⟨"p1", "bob", "#4ECDC4", none, none, []⟩, true, true⟩
        : ClientConn))] : List (String × ClientConn)), e.1 ≠ "u2")
    ∧ assignedColor ⟨⟨"h", "host", "#FF6B6B", none, none, []⟩,
        [("p1", ⟨⟨"p1", "bob", "#4ECDC4", none, none, []⟩, true, true⟩)], 2⟩
      = USER_COLORS.getD (2 % USER_COLORS.length) ""
    ∧ (handleJoin ⟨⟨"h", "host", "#FF6B6B", none, none, []⟩,
        [("p1", ⟨⟨"p1", "bob", "#4ECDC4", none, none, []⟩, true, true⟩)], 2⟩
        "u2" "carol").1.colorIndex = 2 + 1
    ∧ ("u2", (⟨⟨"u2", "carol",
        assignedColor ⟨⟨"h", "host", "#FF6B6B", none, none, []⟩,
          [("p1", ⟨⟨"p1", "bob", "#4ECDC4", none, none, []⟩, true, true⟩)], 2⟩,
        none, none, []⟩, true, true⟩ : ClientConn))
      ∈ (handleJoin ⟨⟨"h", "host", "#FF6B6B", none, none, []⟩,
          [("p1", ⟨⟨"p1", "bob", "#4ECDC4", none, none, []⟩, true, true⟩)], 2⟩
          "u2" "carol").1.clients
    ∧ (runHost ⟨⟨"h", "host", "#FF6B6B", none, none, []⟩,
        [("p1", ⟨⟨"p1", "bob", "#4ECDC4", none, none, []⟩, true, true⟩)], 2⟩
        [HostEvent.leave "p1", HostEvent.join "u2" "carol"]).colorIndex
      = 2 + 1
    ∧ (serverInit "u2" "carol").hostUser.color = USER_COLORS.getD 0 "" := by
  have h := colorAssignment_amended
    ⟨⟨"h", "host", "#FF6B6B", none, none, []⟩,
      [("p1", ⟨⟨"p1", "bob", "#4ECDC4", none, none, []⟩, true, true⟩)], 2⟩
    "u2" "carol" [HostEvent.leave "p1", HostEvent.join "u2" "carol"]
  exact ⟨by decide, h.1, h.2.1, h.2.2.1 (by decide), h.2.2.2.2.1, h.2.2.2.2.2⟩
